import Mathlib

/-!
# LC-3 simulator (`main.cpp`): shallow embedding and verified properties

Machine words are natural numbers; every place where the C++ code stores into a
`uint16_t` (or `uint8_t`) is an explicit reduction modulo `2^16` (or `2^8`).
The host is little-endian (the loader's `swap16` exists for that reason).

The two global arrays `memory` and `registers`, the local flag `running` of
`execute` and the console (standard input as a queue of pending bytes,
standard output as the list of bytes written so far) form the machine state.
-/

namespace LC3

/-! ## Constants -/

def MEMORY_MAX : Nat := 1 <<< 16

def OP_BR : Nat := 0
def OP_ADD : Nat := 1
def OP_LD : Nat := 2
def OP_ST : Nat := 3
def OP_JSR : Nat := 4
def OP_AND : Nat := 5
def OP_LDR : Nat := 6
def OP_STR : Nat := 7
def OP_RTI : Nat := 8
def OP_NOT : Nat := 9
def OP_LDI : Nat := 10
def OP_STI : Nat := 11
def OP_JMP : Nat := 12
def OP_RESERVED : Nat := 13
def OP_LEA : Nat := 14
def OP_TRAP : Nat := 15

def R_R0 : Nat := 0
def R_R7 : Nat := 7
def R_PC : Nat := 8
def R_COND : Nat := 9
def R_COUNT : Nat := 10

def COND_NEGATIVE : Nat := 1 <<< 2
def COND_ZERO : Nat := 1 <<< 1
def COND_POSITIVE : Nat := 1 <<< 0

def TRAP_GETC : Nat := 0x20
def TRAP_OUT : Nat := 0x21
def TRAP_PUTS : Nat := 0x22
def TRAP_IN : Nat := 0x23
def TRAP_PUTSP : Nat := 0x24
def TRAP_HALT : Nat := 0x25

def MR_KBSR : Nat := 0xFE00
def MR_KBDR : Nat := 0xFE02

/-! ## Bit-field utilities -/

/-- Source `bits(x, start, stop)`: `count` is a `uint8_t`, `mask` a `uint16_t`,
the result a `uint16_t`. -/
def bits (x start stop : Nat) : Nat :=
  let count := (stop + 256 - start + 1) % 256
  let mask := (((1 <<< count) - 1) <<< start) % 65536
  ((x &&& mask) >>> start) % 65536

/-- Source `bit(x, index)`. -/
def bit (x index : Nat) : Nat :=
  bits x index index

/-- Source `sign_extend(value, bits)`: `mask` and `sign` are `uint16_t`, the sum
is returned as a `uint16_t`. -/
def sign_extend (value width : Nat) : Nat :=
  let mask := (1 <<< (width - 1)) % 65536
  if value &&& mask = 0 then value
  else
    let sign := (((1 <<< (16 - width)) - 1) <<< width) % 65536
    (sign + value) % 65536

/-- Source `swap16(x)`: the two shifts are done on `int`, the result is a
`uint16_t`. -/
def swap16 (x : Nat) : Nat :=
  ((x <<< 8) ||| (x >>> 8)) % 65536

/-! ## Machine state -/

/-- The global arrays, the loop flag of `execute` and the console. `input` holds
the bytes pending on standard input (`check_key()` is true exactly when it is
non-empty, `getchar()` removes its head and blocks when it is empty); `output`
holds the bytes written to standard output, oldest first. -/
structure State where
  memory : Nat → Nat
  registers : Nat → Nat
  running : Bool
  input : List Nat
  output : List Nat

/-- Array store `a[i] = v`. -/
def store (a : Nat → Nat) (i v : Nat) : Nat → Nat :=
  fun j => if j = i then v else a j

/-- Bytes of a string constant written with `std::cout <<`. -/
def str_bytes (t : String) : List Nat :=
  t.toList.map Char.toNat

/-- Decimal digits printed by `std::cout << n` for an unsigned value. -/
def dec_bytes (n : Nat) : List Nat :=
  (Nat.toDigits 10 n).map Char.toNat

/-- Source `registers[r] = v` for a `uint16_t` value. -/
def set_reg (s : State) (r v : Nat) : State :=
  { s with registers := store s.registers r (v % 65536) }

/-- Write of bytes to `std::cout`. -/
def put (s : State) (bs : List Nat) : State :=
  { s with output := s.output ++ bs }

/-- Source `set_memory(address, value)`. -/
def set_memory (address value : Nat) (s : State) : State :=
  { s with memory := store s.memory address (value % 65536) }

/-- Source `get_memory(address)`: reading `MR_KBSR` polls the keyboard. -/
def get_memory (address : Nat) (s : State) : Nat × State :=
  if address = MR_KBSR then
    match s.input with
    | c :: rest =>
      let m1 := store s.memory MR_KBSR ((1 <<< 15) % 65536)
      let m2 := store m1 MR_KBDR (c % 256)
      (m2 address, { s with memory := m2, input := rest })
    | [] =>
      let m1 := store s.memory MR_KBSR 0
      (m1 address, { s with memory := m1 })
  else
    (s.memory address, s)

/-- Source `set_condition_codes(value)`. -/
def set_condition_codes (value : Nat) (s : State) : State :=
  if value = 0 then set_reg s R_COND COND_ZERO
  else if bit value 15 = 1 then set_reg s R_COND COND_NEGATIVE
  else set_reg s R_COND COND_POSITIVE

/-! ## Loader -/

/-- Source `is.read((char*) p, n)` seen from a little-endian host: consecutive
file bytes fill the low byte and then the high byte of consecutive cells; a
trailing single byte replaces only the low byte of its cell. -/
def read_bytes (mem : Nat → Nat) (p : Nat) : List Nat → (Nat → Nat)
  | [] => mem
  | [b] => store mem p ((mem p / 256) * 256 + b % 256)
  | b :: c :: rest =>
    read_bytes (store mem p (b % 256 + 256 * (c % 256))) (p + 1) rest

/-- Source loop `while (p < memory + MEMORY_MAX) { *p = swap16(*p); p++; }`,
with `p` as a cell index. -/
def swap_loop : Nat → Nat → (Nat → Nat) → (Nat → Nat)
  | 0, _, mem => mem
  | fuel + 1, p, mem =>
    if p < MEMORY_MAX then swap_loop fuel (p + 1) (store mem p (swap16 (mem p)))
    else mem

/-- Source `load_program(filename)`. `file` is the content of the named file, or
`none` when it cannot be opened. A file shorter than its two header bytes leaves
the local `origin` indeterminate: the model gives no result (`none`) there. -/
def load_program (filename : List Nat) (file : Option (List Nat)) (s : State) :
    Option (Bool × State) :=
  match file with
  | none => some (false, put s (str_bytes "Could not open file: " ++ filename ++ [10]))
  | some (b0 :: b1 :: rest) =>
    let origin := swap16 (b0 % 256 + 256 * (b1 % 256))
    let s1 := set_reg s R_PC origin
    let max_read := (MEMORY_MAX - origin) % 65536
    let m1 := read_bytes s1.memory origin (rest.take (2 * max_read))
    let m2 := swap_loop MEMORY_MAX origin m1
    some (true, { s1 with memory := m2 })
  | some _ => none

/-! ## Opcode handlers -/

/-- Case `OP_BR` of `execute`. -/
def exec_br (instruction : Nat) (s : State) : State :=
  let negative := bit instruction 11 != 0
  let zero := bit instruction 10 != 0
  let positive := bit instruction 9 != 0
  let pc_offset := bits instruction 0 8
  let conditions := s.registers R_COND
  let reg_negative := bit conditions 2 != 0
  let reg_zero := bit conditions 1 != 0
  let reg_positive := bit conditions 0 != 0
  if (negative && reg_negative) || (zero && reg_zero) || (positive && reg_positive) then
    set_reg s R_PC (s.registers R_PC + sign_extend pc_offset 9)
  else s

/-- Case `OP_ADD` of `execute`. -/
def exec_add (instruction : Nat) (s : State) : State :=
  let destination := bits instruction 9 11
  let source1 := bits instruction 6 8
  let immediate := bit instruction 5
  let result :=
    if immediate = 0 then
      let source2 := bits instruction 0 2
      (s.registers source1 + s.registers source2) % 65536
    else
      let value := bits instruction 0 4
      (s.registers source1 + sign_extend value 5) % 65536
  set_condition_codes result (set_reg s destination result)

/-- Case `OP_LD` of `execute`. -/
def exec_ld (instruction : Nat) (s : State) : State :=
  let destination := bits instruction 9 11
  let offset := bits instruction 0 8
  let address := (s.registers R_PC + sign_extend offset 9) % 65536
  let r := get_memory address s
  set_condition_codes r.1 (set_reg r.2 destination r.1)

/-- Case `OP_ST` of `execute`. -/
def exec_st (instruction : Nat) (s : State) : State :=
  let source := bits instruction 9 11
  let offset := bits instruction 0 8
  let address := (s.registers R_PC + sign_extend offset 9) % 65536
  set_memory address (s.registers source) s

/-- Case `OP_JSR` of `execute`. -/
def exec_jsr (instruction : Nat) (s : State) : State :=
  let s1 := set_reg s R_R7 (s.registers R_PC)
  if bit instruction 11 = 0 then
    let source := bits instruction 6 8
    set_reg s1 R_PC (s1.registers source)
  else
    let address := bits instruction 0 10
    set_reg s1 R_PC (s1.registers R_PC + sign_extend address 11)

/-- Case `OP_AND` of `execute`. -/
def exec_and (instruction : Nat) (s : State) : State :=
  let destination := bits instruction 9 11
  let source1 := bits instruction 6 8
  let immediate := bit instruction 5
  let result :=
    if immediate = 0 then
      let source2 := bits instruction 0 2
      (s.registers source1 &&& s.registers source2) % 65536
    else
      let value := bits instruction 0 4
      (s.registers source1 &&& sign_extend value 5) % 65536
  set_condition_codes result (set_reg s destination result)

/-- Case `OP_LDR` of `execute`. -/
def exec_ldr (instruction : Nat) (s : State) : State :=
  let destination := bits instruction 9 11
  let base := bits instruction 6 8
  let offset := bits instruction 0 5
  let address := (s.registers base + sign_extend offset 6) % 65536
  let r := get_memory address s
  set_condition_codes r.1 (set_reg r.2 destination r.1)

/-- Case `OP_STR` of `execute`. -/
def exec_str (instruction : Nat) (s : State) : State :=
  let source := bits instruction 9 11
  let base := bits instruction 6 8
  let offset := bits instruction 0 5
  let address := (s.registers base + sign_extend offset 6) % 65536
  set_memory address (s.registers source) s

/-- Cases `OP_RTI` and `OP_RESERVED` of `execute`: the diagnostic line and
`running = false`. -/
def exec_unimplemented (opcode : Nat) (s : State) : State :=
  { put s (str_bytes "UNIMPLEMENTED OP CODE: " ++ dec_bytes opcode ++ [10]) with
    running := false }

/-- Case `OP_NOT` of `execute`: `~registers[source]` stored in a `uint16_t`. -/
def exec_not (instruction : Nat) (s : State) : State :=
  let destination := bits instruction 9 11
  let source := bits instruction 6 8
  let result := (s.registers source ^^^ 65535) % 65536
  set_condition_codes result (set_reg s destination result)

/-- Case `OP_LDI` of `execute`. -/
def exec_ldi (instruction : Nat) (s : State) : State :=
  let destination := bits instruction 9 11
  let offset := bits instruction 0 8
  let address := (s.registers R_PC + sign_extend offset 9) % 65536
  let r1 := get_memory address s
  let r2 := get_memory r1.1 r1.2
  set_condition_codes r2.1 (set_reg r2.2 destination r2.1)

/-- Case `OP_STI` of `execute`. -/
def exec_sti (instruction : Nat) (s : State) : State :=
  let source := bits instruction 9 11
  let offset := bits instruction 0 8
  let address := (s.registers R_PC + sign_extend offset 9) % 65536
  let r := get_memory address s
  set_memory r.1 (r.2.registers source) r.2

/-- Case `OP_JMP` of `execute`. -/
def exec_jmp (instruction : Nat) (s : State) : State :=
  let source := bits instruction 6 8
  set_reg s R_PC (s.registers source)

/-- Case `OP_LEA` of `execute`. -/
def exec_lea (instruction : Nat) (s : State) : State :=
  let destination := bits instruction 9 11
  let offset := bits instruction 0 8
  let value := (s.registers R_PC + sign_extend offset 9) % 65536
  set_condition_codes value (set_reg s destination value)

/-! ## Trap handlers -/

/-- Conversion `(uint16_t) c` of a `char` holding the byte `c`; `char` is signed
on the hosts the program is built for. -/
def char_to_uint16 (c : Nat) : Nat :=
  if c % 256 < 128 then c % 256 else c % 256 + 65280

/-- Loop of `TRAP_PUTS`: `char_read` is a `char`, so the test looks at the low
byte of the word read. Each unit of fuel pays for one `get_memory`. -/
def puts_loop : Nat → Nat → State → Option State
  | 0, _, _ => none
  | fuel + 1, address, s =>
    let r := get_memory address s
    let char_read := r.1 % 256
    if char_read ≠ 0 then
      puts_loop fuel ((address + 1) % 65536) (put r.2 [char_read])
    else some r.2

/-- Loop of `TRAP_PUTSP`. Each unit of fuel pays for one `get_memory`. -/
def putsp_loop : Nat → Nat → State → Option State
  | 0, _, _ => none
  | fuel + 1, address, s =>
    let r := get_memory address s
    let mem_read := r.1
    if mem_read ≠ 0 then
      let char1 := bits mem_read 0 7 % 256
      let char2 := bits mem_read 8 15 % 256
      let s2 := put r.2 [char1]
      let s3 := if char2 ≠ 0 then put s2 [char2] else s2
      putsp_loop fuel ((address + 1) % 65536) s3
    else some r.2

/-- Case `OP_TRAP` of `execute`. `none` when a blocking `getchar()` finds no
pending byte (the cycle does not complete) or a string loop runs out of fuel. -/
def exec_trap (instruction : Nat) (s : State) : Option State :=
  let s1 := set_reg s R_R7 (s.registers R_PC)
  let trap_vector := bits instruction 0 7
  if trap_vector = TRAP_GETC then
    match s1.input with
    | [] => none
    | c :: rest =>
      let s2 := set_reg { s1 with input := rest } R_R0 (c % 256)
      some (set_condition_codes (s2.registers R_R0) s2)
  else if trap_vector = TRAP_OUT then
    let c := bits (s1.registers R_R0) 0 7 % 256
    some (put s1 [c])
  else if trap_vector = TRAP_PUTS then
    puts_loop MEMORY_MAX (s1.registers R_R0) s1
  else if trap_vector = TRAP_IN then
    let s2 := put s1 (str_bytes "Press a key: ")
    match s2.input with
    | [] => none
    | c :: rest =>
      let s3 := put { s2 with input := rest } [c % 256]
      let s4 := set_reg s3 R_R0 (char_to_uint16 c)
      some (set_condition_codes (s4.registers R_R0) s4)
  else if trap_vector = TRAP_PUTSP then
    putsp_loop (MEMORY_MAX * (s1.input.length + 1)) (s1.registers R_R0) s1
  else if trap_vector = TRAP_HALT then
    some { put s1 (str_bytes "HALT") with running := false }
  else some s1

/-! ## Execution engine -/

/-- The `switch (opcode)` of `execute`, applied to the fetched instruction word. -/
def dispatch (instruction : Nat) (s1 : State) : Option State :=
  let opcode := bits instruction 12 15
  if opcode = OP_BR then some (exec_br instruction s1)
  else if opcode = OP_ADD then some (exec_add instruction s1)
  else if opcode = OP_LD then some (exec_ld instruction s1)
  else if opcode = OP_ST then some (exec_st instruction s1)
  else if opcode = OP_JSR then some (exec_jsr instruction s1)
  else if opcode = OP_AND then some (exec_and instruction s1)
  else if opcode = OP_LDR then some (exec_ldr instruction s1)
  else if opcode = OP_STR then some (exec_str instruction s1)
  else if opcode = OP_RTI then some (exec_unimplemented opcode s1)
  else if opcode = OP_NOT then some (exec_not instruction s1)
  else if opcode = OP_LDI then some (exec_ldi instruction s1)
  else if opcode = OP_STI then some (exec_sti instruction s1)
  else if opcode = OP_JMP then some (exec_jmp instruction s1)
  else if opcode = OP_RESERVED then some (exec_unimplemented opcode s1)
  else if opcode = OP_LEA then some (exec_lea instruction s1)
  else if opcode = OP_TRAP then exec_trap instruction s1
  else some s1

/-- One pass through the body of the `while (running)` loop of `execute`:
fetch with post-increment of the program counter, decode, dispatch. -/
def cycle (s : State) : Option State :=
  let pc := s.registers R_PC
  let r := get_memory pc (set_reg s R_PC (pc + 1))
  dispatch r.1 r.2

/-- The `while (running)` loop: `fuel` bounds the number of cycles; `none` when
the fuel runs out while still running or a cycle does not complete. -/
def execute_loop : Nat → State → Option State
  | 0, s => if s.running then none else some s
  | fuel + 1, s =>
    if s.running then (cycle s).bind (execute_loop fuel) else some s

/-- Source `execute()`: `running` starts as `true`. -/
def execute (fuel : Nat) (s : State) : Option State :=
  execute_loop fuel { s with running := true }

/-- The instruction word the next cycle fetches (the value `get_memory` returns
for the current program counter). -/
def fetched (s : State) : Nat :=
  (get_memory (s.registers R_PC) s).1

/-! ## Reference notions used to state the properties -/

/-- The bit pattern `x` of width `w` read as a signed two's-complement number. -/
def to_signed (w x : Nat) : Int :=
  if x < 2 ^ (w - 1) then (x : Int) else (x : Int) - 2 ^ w

/-- Reference widening of the low `16 - k` bits of `v`: shift left by `k` inside
16 bits, then shift the signed 16-bit value right arithmetically by `k`. -/
def shift_widen (v k : Nat) : Nat :=
  ((to_signed 16 ((v <<< k) % 65536) / 2 ^ k) % 65536).toNat

/-- Big-endian byte pairs of a sequence of 16-bit words. -/
def word_bytes : List Nat → List Nat
  | [] => []
  | w :: ws => w / 256 :: w % 256 :: word_bytes ws

/-- Program image with origin `o` and words `ws`: the origin and then each word
as two big-endian bytes. -/
def image (o : Nat) (ws : List Nat) : List Nat :=
  o / 256 :: o % 256 :: word_bytes ws

/-- Reference condition of `BR` on the instruction word `i` and the condition
register `c`: a requested flag (bit 11 = n, bit 10 = z, bit 9 = p) is set in `c`
(bit 2 = negative, bit 1 = zero, bit 0 = positive). -/
def br_taken (i c : Nat) : Bool :=
  (i.testBit 11 && c.testBit 2) || (i.testBit 10 && c.testBit 1) ||
    (i.testBit 9 && c.testBit 0)

/-- Reference value of the condition register for a result `v`. -/
def cond_of (v : Nat) : Nat :=
  if v = 0 then COND_ZERO else if 32768 ≤ v then COND_NEGATIVE else COND_POSITIVE

/-- State at process start: zero-initialised globals, `running` as `execute`
initialises it, nothing typed and nothing printed. -/
def zero_state : State :=
  { memory := fun _ => 0, registers := fun _ => 0, running := true,
    input := [], output := [] }

/-- Example state: program counter `p`, the word `w` stored at `p`, register
`R1 = r1`, everything else as in `zero_state`. -/
def example_state (p w r1 : Nat) : State :=
  { zero_state with
    memory := store zero_state.memory p w
    registers := store (store zero_state.registers R_PC p) 1 r1 }

/-- Example state: `BRnzp #2` (`0x0E02`) at `0x3000`, program counter `0x3000`,
condition register ZERO. -/
def br_example : State :=
  { example_state 12288 3586 0 with
    registers := store (example_state 12288 3586 0).registers R_COND COND_ZERO }

/-- Example state: program counter at the keyboard status register `0xFE00`,
whose cell holds 5, and no key pending. -/
def kbsr_example : State :=
  example_state 65024 5 0

/-- Table of `(index, value)` pairs as an array that is zero elsewhere. -/
def table : List (Nat × Nat) → Nat → Nat
  | [] => fun _ => 0
  | (a, v) :: rest => store (table rest) a v

/-- Example state with the given memory cells, registers and pending input;
everything else zero, `running` true, nothing printed. -/
def make_state (cells regs : List (Nat × Nat)) (input : List Nat) : State :=
  { memory := table cells, registers := table regs, running := true,
    input := input, output := [] }

/-- The state after `n` consecutive passes through the loop body, `none` when one
of them does not complete. -/
def run : Nat → State → Option State
  | 0, s => some s
  | n + 1, s => (cycle s).bind (run n)

/-- States the program can be in from `s0` onwards: after any number of completed
cycles, with any keys typed in between. -/
inductive reachable (s0 : State) : State → Prop
  | start : reachable s0 s0
  | key (s : State) (c : Nat) :
      reachable s0 s → reachable s0 { s with input := s.input ++ [c] }
  | step (s s' : State) : reachable s0 s → cycle s = some s' → reachable s0 s'

/-- Reference output of `PUTSP` for a sequence of non-zero words: of each word the
low byte, then the high byte when it is not zero. -/
def putsp_bytes : List Nat → List Nat
  | [] => []
  | w :: ws =>
    (w % 256 :: if w / 256 % 256 ≠ 0 then [w / 256 % 256] else []) ++ putsp_bytes ws

/-- The words of a packed string as a byte sequence, low byte first. -/
def packed_bytes : List Nat → List Nat
  | [] => []
  | w :: ws => w % 256 :: w / 256 % 256 :: packed_bytes ws

/-- The bytes of a sequence that precede its first zero byte. -/
def before_zero : List Nat → List Nat
  | [] => []
  | b :: bs => if b = 0 then [] else b :: before_zero bs

/-- The condition register holds exactly one of the three flags. -/
def cond_flag (c : Nat) : Prop :=
  c = COND_NEGATIVE ∨ c = COND_ZERO ∨ c = COND_POSITIVE

/-- The condition register holds its start-up value 0 or exactly one flag. -/
def cond_valid (c : Nat) : Prop :=
  c = 0 ∨ cond_flag c

/-- Example state: `TRAP 0x22` (`0xF022`) at `0x3000`, `R0 = 0x3100`, and at
`0x3100` the non-zero word `0x0100` followed by a zero word. -/
def puts_example : State :=
  make_state [(12288, 61474), (12544, 256), (12545, 0)] [(8, 12288), (0, 12544)] []

/-- Example state: `TRAP 0x22` (`0xF022`) at `0x3000`, `R0 = 0x3100`, and at
`0x3100` the words `0x0048`, `0x0049`, `0x0000`. -/
def puts_hi_example : State :=
  make_state [(12288, 61474), (12544, 72), (12545, 73), (12546, 0)]
    [(8, 12288), (0, 12544)] []

/-- Example state: `TRAP 0x24` (`0xF024`) at `0x3000`, `R0 = 0x3100`, and at
`0x3100` the words `0x0041`, `0x4200`, `0x0000`. -/
def putsp_example : State :=
  make_state [(12288, 61476), (12544, 65), (12545, 16896), (12546, 0)]
    [(8, 12288), (0, 12544)] []

end LC3

namespace LC3

/-! ## Arithmetic reading of the bit operations -/

theorem and_shifted_mask (x c s : Nat) :
    (x &&& ((2 ^ c - 1) <<< s)) >>> s = x / 2 ^ s % 2 ^ c := by
  apply Nat.eq_of_testBit_eq
  intro j
  rw [← Nat.shiftRight_eq_div_pow]
  simp only [Nat.testBit_shiftRight, Nat.testBit_and, Nat.testBit_shiftLeft,
    Nat.testBit_mod_two_pow, Nat.testBit_two_pow_sub_one]
  have h1 : s + j ≥ s := by omega
  have h2 : s + j - s = j := by omega
  simp only [h1, h2, decide_True, Bool.true_and]
  cases Nat.testBit x (s + j) <;> cases decide (j < c) <;> rfl

theorem shifted_mask_lt (c s : Nat) (h : c + s ≤ 16) : (2 ^ c - 1) <<< s < 65536 := by
  rw [Nat.shiftLeft_eq]
  have h1 : 2 ^ c * 2 ^ s ≤ 2 ^ 16 := by
    rw [← pow_add]
    exact Nat.pow_le_pow_right (by decide) h
  have h2 : 0 < 2 ^ c := Nat.two_pow_pos c
  have h3 : 0 < 2 ^ s := Nat.two_pow_pos s
  have h4 : (2 ^ c - 1) * 2 ^ s < 2 ^ c * 2 ^ s :=
    Nat.mul_lt_mul_of_pos_right (by omega) h3
  have h5 : (2 : Nat) ^ 16 = 65536 := by norm_num
  omega

/-- Closed form of `bits` on a valid range. -/
theorem bits_eq (x start stop : Nat) (hs : start ≤ stop) (hstop : stop ≤ 15) :
    bits x start stop = x / 2 ^ start % 2 ^ (stop - start + 1) := by
  unfold bits
  have hc : (stop + 256 - start + 1) % 256 = stop - start + 1 := by omega
  simp only [hc, Nat.one_shiftLeft]
  rw [Nat.mod_eq_of_lt (shifted_mask_lt _ _ (by omega)), and_shifted_mask]
  apply Nat.mod_eq_of_lt
  have h1 : x / 2 ^ start % 2 ^ (stop - start + 1) < 2 ^ (stop - start + 1) :=
    Nat.mod_lt _ (Nat.two_pow_pos _)
  have h2 : 2 ^ (stop - start + 1) ≤ 2 ^ 16 :=
    Nat.pow_le_pow_right (by decide) (by omega)
  have h3 : (2 : Nat) ^ 16 = 65536 := by norm_num
  omega

end LC3

namespace LC3

theorem and_two_pow_eq (x k : Nat) :
    x &&& 2 ^ k = if x / 2 ^ k % 2 = 1 then 2 ^ k else 0 := by
  apply Nat.eq_of_testBit_eq
  intro j
  have hx : Nat.testBit x k = decide (x / 2 ^ k % 2 = 1) := Nat.testBit_to_div_mod
  by_cases hb : x / 2 ^ k % 2 = 1
  · simp only [hb, if_true, Nat.testBit_and, Nat.testBit_two_pow]
    by_cases hkj : k = j
    · subst hkj
      simp [hx, hb]
    · simp [hkj]
  · simp only [hb, if_false, Nat.testBit_and, Nat.testBit_two_pow, Nat.zero_testBit]
    by_cases hkj : k = j
    · subst hkj
      simp [hx, hb]
    · simp [hkj]

/-- Closed form of `sign_extend` on a value that fits in `w` bits. -/
theorem sign_extend_eq (x w : Nat) (hw1 : 1 ≤ w) (hw : w ≤ 16) (hx : x < 2 ^ w) :
    sign_extend x w = if x < 2 ^ (w - 1) then x else x + (65536 - 2 ^ w) := by
  have hm : (1 <<< (w - 1)) % 65536 = 2 ^ (w - 1) := by
    interval_cases w <;> rfl
  have hc : x &&& 2 ^ (w - 1) = 0 ↔ x < 2 ^ (w - 1) := by
    rw [and_two_pow_eq]
    interval_cases w <;> norm_num at hx ⊢ <;> omega
  have hs : (((1 <<< (16 - w)) - 1) <<< w) % 65536 = 65536 - 2 ^ w := by
    interval_cases w <;> rfl
  have h2 : 2 ^ w ≤ 65536 := by
    have : 2 ^ w ≤ 2 ^ 16 := Nat.pow_le_pow_right (by decide) hw
    simpa using this
  unfold sign_extend
  simp only [hm, hs, hc]
  split_ifs
  · rfl
  · omega

end LC3

namespace LC3

/-! ## Bit-field utilities: verified properties -/

/-- C1: for every `v` (in particular every 16-bit `v`) and width `1 ≤ w ≤ 16`, `sign_extend (v mod 2^w) w`
is a 16-bit word whose signed 16-bit reading equals the signed `w`-bit reading
of the low `w` bits of `v`; it is the bit pattern obtained by shifting `v` left
by `16 - w` and arithmetically right by `16 - w`; it is its argument unchanged
when bit `w - 1` is 0, its argument with all bits above `w - 1` set when that
bit is 1, and its argument unchanged for `w = 16`. -/
theorem sign_extend_widening (v w : Nat) (hw1 : 1 ≤ w) (hw : w ≤ 16) :
    sign_extend (v % 2 ^ w) w < 65536 ∧
    to_signed 16 (sign_extend (v % 2 ^ w) w) = to_signed w (v % 2 ^ w) ∧
    sign_extend (v % 2 ^ w) w = shift_widen v (16 - w) ∧
    (Nat.testBit (v % 2 ^ w) (w - 1) = false →
      sign_extend (v % 2 ^ w) w = v % 2 ^ w) ∧
    (Nat.testBit (v % 2 ^ w) (w - 1) = true →
      sign_extend (v % 2 ^ w) w = v % 2 ^ w + (65536 - 2 ^ w)) ∧
    (w = 16 → sign_extend (v % 2 ^ w) w = v % 2 ^ w) := by
  have hx : v % 2 ^ w < 2 ^ w := Nat.mod_lt _ (Nat.two_pow_pos w)
  rw [sign_extend_eq _ _ hw1 hw hx]
  simp only [to_signed, shift_widen, Nat.shiftLeft_eq, Nat.testBit_to_div_mod]
  refine ⟨?_, ?_, ?_, ?_, ?_, ?_⟩ <;> interval_cases w <;> norm_num at hx ⊢ <;>
    (try split_ifs) <;> omega

/-- C1 at `v = 0x1D`, `w = 5` (the immediate `-3` of `ADD R0,R1,#-3`). -/
theorem sign_extend_widening_witness :
    (1 ≤ 5 ∧ 5 ≤ 16) ∧
    sign_extend (29 % 2 ^ 5) 5 < 65536 ∧
    to_signed 16 (sign_extend (29 % 2 ^ 5) 5) = to_signed 5 (29 % 2 ^ 5) ∧
    sign_extend (29 % 2 ^ 5) 5 = shift_widen 29 (16 - 5) ∧
    (Nat.testBit (29 % 2 ^ 5) (5 - 1) = false →
      sign_extend (29 % 2 ^ 5) 5 = 29 % 2 ^ 5) ∧
    (Nat.testBit (29 % 2 ^ 5) (5 - 1) = true →
      sign_extend (29 % 2 ^ 5) 5 = 29 % 2 ^ 5 + (65536 - 2 ^ 5)) ∧
    (5 = 16 → sign_extend (29 % 2 ^ 5) 5 = 29 % 2 ^ 5) :=
  ⟨by decide, sign_extend_widening 29 5 (by decide) (by decide)⟩

/-- Bit 15 of a 16-bit word, as `bit` computes it. -/
theorem bit15_eq (v : Nat) (hv : v < 65536) : bit v 15 = if 32768 ≤ v then 1 else 0 := by
  unfold bit
  rw [bits_eq v 15 15 (le_refl _) (le_refl _)]
  norm_num
  split_ifs <;> omega

/-- C2: for every 16-bit `x` and `0 ≤ start ≤ stop ≤ 15`, `bits x start stop` is
`(x / 2^start) mod 2^(stop - start + 1)`; the full range returns `x`; and for every
index `i ≤ 15`, `bit x i` is `bits x i i` and is 0 or 1. -/
theorem bits_extracts_range (x start stop i : Nat) (hx : x < 65536) (hs : start ≤ stop)
    (hstop : stop ≤ 15) (hi : i ≤ 15) :
    bits x start stop = x / 2 ^ start % 2 ^ (stop - start + 1) ∧
    bits x 0 15 = x ∧
    bit x i = bits x i i ∧ (bit x i = 0 ∨ bit x i = 1) := by
  refine ⟨bits_eq x start stop hs hstop, ?_, rfl, ?_⟩
  · rw [bits_eq x 0 15 (by omega) (le_refl _)]
    norm_num
    omega
  · unfold bit
    rw [bits_eq x i i (le_refl _) hi]
    simp only [Nat.sub_self, Nat.zero_add, pow_one]
    omega

/-- C2 at `x = 0x107D`, the opcode field `12..15` and bit `5`. -/
theorem bits_extracts_range_witness :
    (4221 < 65536 ∧ 12 ≤ 15 ∧ 15 ≤ 15 ∧ 5 ≤ 15) ∧
    bits 4221 12 15 = 4221 / 2 ^ 12 % 2 ^ (15 - 12 + 1) ∧
    bits 4221 0 15 = 4221 ∧
    bit 4221 5 = bits 4221 5 5 ∧ (bit 4221 5 = 0 ∨ bit 4221 5 = 1) :=
  ⟨by decide, bits_extracts_range 4221 12 15 5 (by decide) (by decide) (by decide)
    (by decide)⟩

/-! ## Condition codes -/

/-- The condition register after `set_condition_codes` on a 16-bit value. -/
theorem cond_after (v : Nat) (s : State) (hv : v < 65536) :
    (set_condition_codes v s).registers R_COND =
      if v = 0 then 2 else if 32768 ≤ v then 4 else 1 := by
  unfold set_condition_codes
  rw [bit15_eq v hv]
  by_cases h0 : v = 0
  · simp [h0, set_reg, store, COND_ZERO]
  · by_cases h1 : 32768 ≤ v
    · simp [h0, h1, set_reg, store, COND_NEGATIVE]
    · simp [h0, h1, set_reg, store, COND_POSITIVE]

/-- What `set_condition_codes` leaves alone. -/
theorem set_condition_codes_frame (v : Nat) (s : State) :
    (∀ r, r ≠ R_COND → (set_condition_codes v s).registers r = s.registers r) ∧
    (set_condition_codes v s).memory = s.memory ∧
    (set_condition_codes v s).running = s.running ∧
    (set_condition_codes v s).input = s.input ∧
    (set_condition_codes v s).output = s.output := by
  unfold set_condition_codes
  split_ifs <;> refine ⟨fun r hr => ?_, rfl, rfl, rfl, rfl⟩ <;> simp [set_reg, store, hr]

/-- C3: for every 16-bit `v`, after `set_condition_codes v` the condition register
is one of `COND_ZERO = 2`, `COND_NEGATIVE = 4`, `COND_POSITIVE = 1` (three distinct
values): `COND_ZERO` iff `v = 0`, `COND_NEGATIVE` iff bit 15 of `v` is 1,
`COND_POSITIVE` iff neither; every other register and all of memory (and the
console and the run flag) are unchanged. -/
theorem set_condition_codes_exact (v : Nat) (s : State) (hv : v < 65536) :
    (COND_ZERO = 2 ∧ COND_NEGATIVE = 4 ∧ COND_POSITIVE = 1) ∧
    ((set_condition_codes v s).registers R_COND = COND_ZERO ∨
      (set_condition_codes v s).registers R_COND = COND_NEGATIVE ∨
      (set_condition_codes v s).registers R_COND = COND_POSITIVE) ∧
    ((set_condition_codes v s).registers R_COND = COND_ZERO ↔ v = 0) ∧
    ((set_condition_codes v s).registers R_COND = COND_NEGATIVE ↔
      Nat.testBit v 15 = true) ∧
    ((set_condition_codes v s).registers R_COND = COND_POSITIVE ↔
      (v ≠ 0 ∧ Nat.testBit v 15 = false)) ∧
    (∀ r, r ≠ R_COND → (set_condition_codes v s).registers r = s.registers r) ∧
    (∀ a, (set_condition_codes v s).memory a = s.memory a) ∧
    (set_condition_codes v s).running = s.running ∧
    (set_condition_codes v s).input = s.input ∧
    (set_condition_codes v s).output = s.output := by
  have hf := set_condition_codes_frame v s
  have hb : Nat.testBit v 15 = decide (32768 ≤ v) := by
    rw [Nat.testBit_to_div_mod]
    congr 1
    apply propext
    norm_num
    omega
  rw [cond_after v s hv, hb]
  refine ⟨⟨rfl, rfl, rfl⟩, ?_, ?_, ?_, ?_, hf.1, ?_, hf.2.2.1, hf.2.2.2.1, hf.2.2.2.2⟩
  · simp only [COND_ZERO, COND_NEGATIVE, COND_POSITIVE]
    split_ifs <;> simp
  · simp only [COND_ZERO]
    split_ifs <;> simp_all
  · simp only [COND_NEGATIVE]
    split_ifs <;> simp_all
  · simp only [COND_POSITIVE]
    split_ifs <;> simp_all
  · intro a
    rw [hf.2.1]

/-- C3 at `v = 0x8000`: the condition register becomes `COND_NEGATIVE`. -/
theorem set_condition_codes_exact_witness :
    32768 < 65536 ∧
    (set_condition_codes 32768 zero_state).registers R_COND = COND_NEGATIVE :=
  ⟨by decide, (set_condition_codes_exact 32768 zero_state (by decide)).2.2.2.1.mpr
    (by decide)⟩

/-! ## Loader -/

/-- Closed form of `swap16` on a 16-bit word. -/
theorem swap16_eq (x : Nat) (hx : x < 65536) : swap16 x = x % 256 * 256 + x / 256 := by
  unfold swap16
  have h1 : x >>> 8 < 2 ^ 8 := by
    rw [Nat.shiftRight_eq_div_pow]
    norm_num
    omega
  have h2 : x <<< 8 = 2 ^ 8 * x := by
    rw [Nat.shiftLeft_eq, Nat.mul_comm]
  rw [h2, ← Nat.mul_add_lt_is_or h1, Nat.shiftRight_eq_div_pow]
  norm_num
  omega

/-- Induction over a byte list two bytes at a time, as `read_bytes` consumes it. -/
theorem byte_pairs_induction {P : List Nat → Prop} (h0 : P [])
    (h1 : ∀ b, P [b]) (h2 : ∀ b c rest, P rest → P (b :: c :: rest)) : ∀ l, P l
  | [] => h0
  | [b] => h1 b
  | b :: c :: rest => h2 b c rest (byte_pairs_induction h0 h1 h2 rest)

/-- Cells below the start pointer are not touched by `read_bytes`. -/
theorem read_bytes_below (bs : List Nat) :
    ∀ (mem : Nat → Nat) (p a : Nat), a < p → read_bytes mem p bs a = mem a := by
  induction bs using byte_pairs_induction with
  | h0 => intro mem p a _; rfl
  | h1 b =>
    intro mem p a h
    have : a ≠ p := by omega
    simp [read_bytes, store, this]
  | h2 b c rest ih =>
    intro mem p a h
    have : a ≠ p := by omega
    rw [read_bytes, ih _ _ _ (by omega)]
    simp [store, this]

/-- Cells past the last byte pair are not touched by `read_bytes`. -/
theorem read_bytes_above (bs : List Nat) :
    ∀ (mem : Nat → Nat) (p a : Nat), p + (bs.length + 1) / 2 ≤ a →
      read_bytes mem p bs a = mem a := by
  induction bs using byte_pairs_induction with
  | h0 => intro mem p a _; rfl
  | h1 b =>
    intro mem p a h
    simp only [List.length_singleton] at h
    have : a ≠ p := by omega
    simp [read_bytes, store, this]
  | h2 b c rest ih =>
    intro mem p a h
    simp only [List.length_cons] at h
    have : a ≠ p := by omega
    rw [read_bytes, ih _ _ _ (by omega)]
    simp [store, this]

/-- Closed form of the byte-swapping loop. -/
theorem swap_loop_eq (fuel : Nat) :
    ∀ (p : Nat) (mem : Nat → Nat) (a : Nat),
      swap_loop fuel p mem a =
        if p ≤ a ∧ a < p + fuel ∧ a < MEMORY_MAX then swap16 (mem a) else mem a := by
  induction fuel with
  | zero =>
    intro p mem a
    have : ¬ (p ≤ a ∧ a < p + 0 ∧ a < MEMORY_MAX) := by omega
    rw [if_neg this]
    rfl
  | succ n ih =>
    intro p mem a
    unfold swap_loop
    by_cases hp : p < MEMORY_MAX
    · simp only [hp, if_true, ih]
      by_cases hap : a = p
      · subst hap
        have h1 : ¬ (a + 1 ≤ a ∧ a < a + 1 + n ∧ a < MEMORY_MAX) := by omega
        have h2 : a ≤ a ∧ a < a + (n + 1) ∧ a < MEMORY_MAX := ⟨le_refl _, by omega, hp⟩
        simp [h1, h2, store]
      · have h3 : (p + 1 ≤ a ∧ a < p + 1 + n ∧ a < MEMORY_MAX) ↔
            (p ≤ a ∧ a < p + (n + 1) ∧ a < MEMORY_MAX) := by omega
        simp [h3, store, hap]
    · have : ¬ (p ≤ a ∧ a < p + (n + 1) ∧ a < MEMORY_MAX) := by omega
      simp [hp, this]

/-- The origin decoded from the two header bytes. -/
theorem origin_eq (b0 b1 : Nat) (hb0 : b0 < 256) (hb1 : b1 < 256) :
    swap16 (b0 % 256 + 256 * (b1 % 256)) = 256 * b0 + b1 := by
  rw [swap16_eq _ (by omega)]
  omega

/-- C5: for every openable image with header bytes `b0 b1` and any following
content, `load_program` reports success, sets the program counter to
`256*b0 + b1`, leaves every other register (R0..R7, the condition register)
unchanged, and leaves every memory cell outside `origin..65535` unchanged, in
particular every cell below the origin; the console and the run flag are
untouched. -/
theorem load_program_frame (filename rest : List Nat) (b0 b1 : Nat) (s : State)
    (hb0 : b0 < 256) (hb1 : b1 < 256) :
    ∃ s', load_program filename (some (b0 :: b1 :: rest)) s = some (true, s') ∧
      s'.registers R_PC = 256 * b0 + b1 ∧
      (∀ r, r ≠ R_PC → s'.registers r = s.registers r) ∧
      (∀ a, a < 256 * b0 + b1 → s'.memory a = s.memory a) ∧
      (∀ a, 65536 ≤ a → s'.memory a = s.memory a) ∧
      s'.running = s.running ∧ s'.input = s.input ∧ s'.output = s.output := by
  have ho := origin_eq b0 b1 hb0 hb1
  refine ⟨_, rfl, ?_, ?_, ?_, ?_, rfl, rfl, rfl⟩
  · simp only [set_reg, store, ho, if_true]
    omega
  · intro r hr
    simp [set_reg, store, hr]
  · intro a ha
    simp only [ho, swap_loop_eq]
    rw [if_neg (by omega), read_bytes_below _ _ _ _ ha]
    rfl
  · intro a ha
    have h16 : (1 <<< 16 : Nat) = 65536 := rfl
    simp only [ho, swap_loop_eq, MEMORY_MAX, h16]
    rw [if_neg (by omega), read_bytes_above]
    · rfl
    · have hl := List.length_take_le (2 * ((65536 - (256 * b0 + b1)) % 65536)) rest
      omega

/-- C5 on the image `30 00 12 34` (origin `0x3000`, one word). -/
theorem load_program_frame_witness :
    (48 < 256 ∧ 0 < 256) ∧
    ∃ s', load_program [] (some (48 :: 0 :: [18, 52])) zero_state = some (true, s') ∧
      s'.registers R_PC = 256 * 48 + 0 ∧
      (∀ r, r ≠ R_PC → s'.registers r = zero_state.registers r) ∧
      (∀ a, a < 256 * 48 + 0 → s'.memory a = zero_state.memory a) ∧
      (∀ a, 65536 ≤ a → s'.memory a = zero_state.memory a) ∧
      s'.running = zero_state.running ∧ s'.input = zero_state.input ∧
      s'.output = zero_state.output :=
  ⟨by decide, load_program_frame [] [18, 52] 48 0 zero_state (by decide) (by decide)⟩

/-- Cutting the byte stream after `2*m` bytes cuts the word sequence after `m`
words. -/
theorem word_bytes_take (ws : List Nat) :
    ∀ m, (word_bytes ws).take (2 * m) = word_bytes (ws.take m) := by
  induction ws with
  | nil => intro m; simp [word_bytes]
  | cons w ws ih =>
    intro m
    cases m with
    | zero => simp [word_bytes]
    | succ k =>
      have : 2 * (k + 1) = 2 * k + 1 + 1 := by omega
      simp [word_bytes, this, ih]

/-- The raw cell contents after reading the bytes of a word sequence. -/
theorem read_word_bytes (ws : List Nat) :
    ∀ (mem : Nat → Nat) (p a : Nat), p ≤ a → a < p + ws.length →
      read_bytes mem p (word_bytes ws) a =
        ws.getD (a - p) 0 / 256 % 256 + 256 * (ws.getD (a - p) 0 % 256 % 256) := by
  induction ws with
  | nil =>
    intro mem p a h1 h2
    simp at h2
    omega
  | cons w ws ih =>
    intro mem p a h1 h2
    simp only [List.length_cons] at h2
    simp only [word_bytes, read_bytes]
    by_cases hap : a = p
    · subst hap
      rw [read_bytes_below _ _ _ _ (by omega)]
      simp [store]
    · have h3 : a - p = (a - (p + 1)) + 1 := by omega
      rw [ih _ _ _ (by omega) (by omega), h3]
      simp

/-- Load round trip for a non-zero origin: the image with origin `o ≥ 1` and
16-bit words `ws`, loaded into any memory, leaves `memory[o + i] = ws[i]` for
every `i < min (length ws) (65536 - o)`. -/
theorem load_round_trip_pos_origin (filename ws : List Nat) (o i : Nat) (s : State)
    (ho1 : 1 ≤ o) (ho : o < 65536) (hw : ∀ w ∈ ws, w < 65536)
    (hi : i < min ws.length (65536 - o)) :
    ∃ s', load_program filename (some (image o ws)) s = some (true, s') ∧
      s'.memory (o + i) = ws.getD i 0 := by
  have hor := origin_eq (o / 256) (o % 256) (by omega) (by omega)
  have hoo : 256 * (o / 256) + o % 256 = o := by omega
  rw [hoo] at hor
  refine ⟨_, rfl, ?_⟩
  have h16 : (1 <<< 16 : Nat) = 65536 := rfl
  have hm : (65536 - o) % 65536 = 65536 - o := by omega
  have hi1 : i < ws.length := by omega
  have hi2 : i < 65536 - o := by omega
  simp only [hor, swap_loop_eq, MEMORY_MAX, h16, hm, word_bytes_take]
  rw [if_pos (by omega), read_word_bytes _ _ _ _ (by omega)
    (by rw [List.length_take]; omega)]
  have h4 : o + i - o = i := by omega
  have h5 : (List.take (65536 - o) ws).getD i 0 = ws.getD i 0 := by
    simp only [List.getD_eq_getElem?_getD, List.getElem?_take, hi2, if_true]
  rw [h4, h5]
  have h6 : ws.getD i 0 < 65536 := by
    rw [List.getD_eq_getElem?_getD, List.getElem?_eq_getElem hi1]
    exact hw _ (List.getElem_mem hi1)
  rw [origin_eq (ws.getD i 0 / 256) (ws.getD i 0 % 256) (by omega) (by omega)]
  omega

/-- C4, failing input: the image `00 00 00 01` (origin 0, one word `W1 = 1`) loads
successfully into the all-zero memory but leaves `memory[0] = 0`, not `W1`:
`max_read` is `65536 - 0` truncated to 16 bits, which is 0, so no word is read. -/
theorem load_origin_zero_reads_nothing :
    ∃ s', load_program [] (some (image 0 [1])) zero_state = some (true, s') ∧
      s'.memory 0 = 0 ∧ [1].getD 0 0 = 1 := by
  refine ⟨_, rfl, ?_, rfl⟩
  have hor : swap16 (0 / 256 % 256 + 256 * (0 % 256 % 256)) = 0 := by decide
  have hm : (MEMORY_MAX - 0) % 65536 = 0 := by decide
  simp only [hor, hm, swap_loop_eq, Nat.mul_zero, List.take_zero, read_bytes]
  decide

/-! ## Memory access and fetch -/

@[simp] theorem get_memory_running (a : Nat) (s : State) :
    (get_memory a s).2.running = s.running := by
  unfold get_memory
  split_ifs
  · cases s.input <;> rfl
  · rfl

@[simp] theorem get_memory_registers (a : Nat) (s : State) :
    (get_memory a s).2.registers = s.registers := by
  unfold get_memory
  split_ifs
  · cases s.input <;> rfl
  · rfl

@[simp] theorem get_memory_output (a : Nat) (s : State) :
    (get_memory a s).2.output = s.output := by
  unfold get_memory
  split_ifs
  · cases s.input <;> rfl
  · rfl

/-- Away from the keyboard status register a read is a plain array access. -/
theorem get_memory_plain (a : Nat) (s : State) (h : a ≠ MR_KBSR) :
    get_memory a s = (s.memory a, s) := by
  unfold get_memory
  rw [if_neg h]

/-- A read does not look at the registers. -/
theorem get_memory_set_reg (a r v : Nat) (s : State) :
    get_memory a (set_reg s r v) = ((get_memory a s).1, set_reg (get_memory a s).2 r v) := by
  unfold get_memory set_reg
  split_ifs
  · cases s.input <;> rfl
  · rfl

/-- A fetch from the keyboard status register yields 0 or 0x8000. -/
theorem fetched_kbsr (s : State) (h : s.registers R_PC = MR_KBSR) :
    fetched s = 0 ∨ fetched s = 32768 := by
  unfold fetched get_memory
  rw [if_pos h, h]
  cases s.input with
  | nil => left; simp [store]
  | cons c rest => right; simp [store, MR_KBSR, MR_KBDR]

/-- An instruction word whose opcode is neither `BR` nor `RTI` was not fetched
from the keyboard status register. -/
theorem pc_ne_kbsr (s : State) (h0 : bits (fetched s) 12 15 ≠ OP_BR)
    (h8 : bits (fetched s) 12 15 ≠ OP_RTI) : s.registers R_PC ≠ MR_KBSR := by
  intro h
  rcases fetched_kbsr s h with h1 | h1
  · rw [h1] at h0
    exact h0 (by decide)
  · rw [h1] at h8
    exact h8 (by decide)

/-- The cycle as a dispatch on the fetched word. -/
theorem cycle_eq (s : State) :
    cycle s = dispatch (fetched s)
      (set_reg (get_memory (s.registers R_PC) s).2 R_PC (s.registers R_PC + 1)) := by
  unfold cycle fetched
  simp only [get_memory_set_reg]

/-- The cycle when the fetch does not touch the keyboard status register. -/
theorem cycle_plain (s : State) (h : s.registers R_PC ≠ MR_KBSR) :
    cycle s = dispatch (fetched s) (set_reg s R_PC (s.registers R_PC + 1)) := by
  rw [cycle_eq, get_memory_plain _ _ h]

/-- A bit field is smaller than two to its width. -/
theorem bits_lt (x start stop : Nat) (hs : start ≤ stop) (hstop : stop ≤ 15) :
    bits x start stop < 2 ^ (stop - start + 1) := by
  rw [bits_eq x start stop hs hstop]
  exact Nat.mod_lt _ (Nat.two_pow_pos _)

/-- A three-bit register field names one of R0..R7. -/
theorem reg_field_lt (x start : Nat) (hs : start ≤ 13) : bits x start (start + 2) < 8 := by
  have h := bits_lt x start (start + 2) (by omega) (by omega)
  have h2 : start + 2 - start + 1 = 3 := by omega
  rw [h2] at h
  exact h

/-- The condition register after `set_condition_codes`, by the reference rule. -/
theorem cond_after_eq_cond_of (v : Nat) (s : State) (hv : v < 65536) :
    (set_condition_codes v s).registers R_COND = cond_of v := by
  rw [cond_after v s hv]
  rfl

/-! ## ADD -/

/-- C8: for every state whose fetched instruction word has opcode `0001`, the
cycle completes; afterwards register `dest` (bits 9-11) holds
`(R[src1] + operand) mod 2^16`, where `src1` is bits 6-8 and `operand` is
`R[bits 0-2]` when bit 5 is 0 and `sign_extend (bits 0-4) 5` when bit 5 is 1
(registers read in the state before the cycle), and the condition register is
ZERO / NEGATIVE / POSITIVE according to that result. -/
theorem add_cycle (s : State) (h : bits (fetched s) 12 15 = OP_ADD) :
    ∃ s', cycle s = some s' ∧
      s'.registers (bits (fetched s) 9 11) =
        (s.registers (bits (fetched s) 6 8) +
          (if bit (fetched s) 5 = 0 then s.registers (bits (fetched s) 0 2)
           else sign_extend (bits (fetched s) 0 4) 5)) % 65536 ∧
      s'.registers R_COND =
        cond_of ((s.registers (bits (fetched s) 6 8) +
          (if bit (fetched s) 5 = 0 then s.registers (bits (fetched s) 0 2)
           else sign_extend (bits (fetched s) 0 4) 5)) % 65536) := by
  have hpc := pc_ne_kbsr s (by rw [h]; decide) (by rw [h]; decide)
  have hd : bits (fetched s) 9 11 < 8 := reg_field_lt (fetched s) 9 (by omega)
  have h1 : bits (fetched s) 6 8 < 8 := reg_field_lt (fetched s) 6 (by omega)
  have h2 : bits (fetched s) 0 2 < 8 := reg_field_lt (fetched s) 0 (by omega)
  have hdc : bits (fetched s) 9 11 ≠ R_COND := by unfold R_COND; omega
  have hr1 : (set_reg s R_PC (s.registers R_PC + 1)).registers (bits (fetched s) 6 8) =
      s.registers (bits (fetched s) 6 8) := by
    have : bits (fetched s) 6 8 ≠ R_PC := by unfold R_PC; omega
    simp [set_reg, store, this]
  have hr2 : (set_reg s R_PC (s.registers R_PC + 1)).registers (bits (fetched s) 0 2) =
      s.registers (bits (fetched s) 0 2) := by
    have : bits (fetched s) 0 2 ≠ R_PC := by unfold R_PC; omega
    simp [set_reg, store, this]
  refine ⟨exec_add (fetched s) (set_reg s R_PC (s.registers R_PC + 1)), ?_, ?_, ?_⟩
  · rw [cycle_plain s hpc]
    simp [dispatch, h, OP_ADD, OP_BR]
  · unfold exec_add
    rw [(set_condition_codes_frame _ _).1 _ hdc]
    simp only [hr1, hr2]
    split_ifs <;> simp [set_reg, store]
  · simp only [exec_add, hr1, hr2]
    split_ifs <;> exact cond_after_eq_cond_of _ _ (Nat.mod_lt _ (by decide))

/-- C8 on the state with `R1 = 5` about to fetch `ADD R0,R1,#-3` (`0x107D`) at
`0x3000`: afterwards `R0 = 2` and the condition register is POSITIVE. -/
theorem add_cycle_witness :
    bits (fetched (example_state 12288 4221 5)) 12 15 = OP_ADD ∧
    ∃ s', cycle (example_state 12288 4221 5) = some s' ∧
      s'.registers R_R0 = 2 ∧ s'.registers R_COND = COND_POSITIVE := by
  have h : bits (fetched (example_state 12288 4221 5)) 12 15 = OP_ADD := by decide
  obtain ⟨s', hc, hr, hcond⟩ := add_cycle (example_state 12288 4221 5) h
  have e1 : bits (fetched (example_state 12288 4221 5)) 9 11 = R_R0 := by decide
  have e2 : (example_state 12288 4221 5).registers
      (bits (fetched (example_state 12288 4221 5)) 6 8) = 5 := by decide
  have e3 : bit (fetched (example_state 12288 4221 5)) 5 ≠ 0 := by decide
  have e4 : sign_extend (bits (fetched (example_state 12288 4221 5)) 0 4) 5 = 65533 := by
    decide
  rw [e2, if_neg e3, e4] at hr hcond
  rw [e1] at hr
  exact ⟨h, s', hc, hr, hcond⟩

/-! ## LEA -/

/-- C10: for every state with program counter `p` whose fetched instruction word
has opcode `1110`, the cycle completes; afterwards register `dest` (bits 9-11)
holds `(p + 1 + sign_extend (bits 0-8) 9) mod 2^16` (the incremented program
counter plus the offset), the condition register is set from that value, and no
memory cell was accessed at that address: memory and the pending console input
are exactly as before. -/
theorem lea_cycle (s : State) (h : bits (fetched s) 12 15 = OP_LEA) :
    ∃ s', cycle s = some s' ∧
      s'.registers (bits (fetched s) 9 11) =
        (s.registers R_PC + 1 + sign_extend (bits (fetched s) 0 8) 9) % 65536 ∧
      s'.registers R_COND =
        cond_of ((s.registers R_PC + 1 + sign_extend (bits (fetched s) 0 8) 9) % 65536) ∧
      (∀ a, s'.memory a = s.memory a) ∧ s'.input = s.input ∧ s'.output = s.output := by
  have hpc := pc_ne_kbsr s (by rw [h]; decide) (by rw [h]; decide)
  have hd : bits (fetched s) 9 11 < 8 := reg_field_lt (fetched s) 9 (by omega)
  have hdc : bits (fetched s) 9 11 ≠ R_COND := by unfold R_COND; omega
  have hv : ((set_reg s R_PC (s.registers R_PC + 1)).registers R_PC +
      sign_extend (bits (fetched s) 0 8) 9) % 65536 =
      (s.registers R_PC + 1 + sign_extend (bits (fetched s) 0 8) 9) % 65536 := by
    simp only [set_reg, store, if_true]
    omega
  refine ⟨exec_lea (fetched s) (set_reg s R_PC (s.registers R_PC + 1)), ?_, ?_, ?_, ?_, ?_, ?_⟩
  · rw [cycle_plain s hpc]
    simp [dispatch, h, OP_LEA, OP_BR, OP_ADD, OP_LD, OP_ST, OP_JSR, OP_AND, OP_LDR, OP_STR,
      OP_RTI, OP_NOT, OP_LDI, OP_STI, OP_JMP, OP_RESERVED]
  · unfold exec_lea
    rw [(set_condition_codes_frame _ _).1 _ hdc]
    simp only [hv]
    simp [set_reg, store]
  · simp only [exec_lea, hv]
    exact cond_after_eq_cond_of _ _ (Nat.mod_lt _ (by decide))
  · intro a
    unfold exec_lea
    rw [(set_condition_codes_frame _ _).2.1]
    rfl
  · unfold exec_lea
    rw [(set_condition_codes_frame _ _).2.2.2.1]
    rfl
  · unfold exec_lea
    rw [(set_condition_codes_frame _ _).2.2.2.2]
    rfl

/-- C10 on the state about to fetch `LEA R0,#1` (`0xE001`) at `0x3000`:
afterwards `R0 = 0x3002`. -/
theorem lea_cycle_witness :
    bits (fetched (example_state 12288 57345 0)) 12 15 = OP_LEA ∧
    ∃ s', cycle (example_state 12288 57345 0) = some s' ∧ s'.registers R_R0 = 12290 := by
  have h : bits (fetched (example_state 12288 57345 0)) 12 15 = OP_LEA := by decide
  obtain ⟨s', hc, hr, _⟩ := lea_cycle (example_state 12288 57345 0) h
  have e1 : bits (fetched (example_state 12288 57345 0)) 9 11 = R_R0 := by decide
  have e2 : ((example_state 12288 57345 0).registers R_PC + 1 +
      sign_extend (bits (fetched (example_state 12288 57345 0)) 0 8) 9) % 65536 = 12290 := by
    decide
  rw [e1, e2] at hr
  exact ⟨h, s', hc, hr⟩

/-! ## BR -/

/-- The C++ conversion `bool b = bit(x, index)` is the test of that bit. -/
theorem bit_ne_zero (x index : Nat) (h : index ≤ 15) :
    (bit x index != 0) = x.testBit index := by
  unfold bit
  rw [bits_eq x index index (le_refl _) h, Nat.testBit_to_div_mod, Bool.eq_iff_iff]
  simp only [Nat.sub_self, Nat.zero_add, pow_one, bne_iff_ne, decide_eq_true_eq]
  omega

/-- The branch handler in terms of the reference condition. -/
theorem exec_br_eq (i : Nat) (s : State) :
    exec_br i s =
      if br_taken i (s.registers R_COND) = true then
        set_reg s R_PC (s.registers R_PC + sign_extend (bits i 0 8) 9)
      else s := by
  unfold exec_br br_taken
  simp only [bit_ne_zero i 11 (by omega), bit_ne_zero i 10 (by omega),
    bit_ne_zero i 9 (by omega), bit_ne_zero _ 2 (by omega), bit_ne_zero _ 1 (by omega),
    bit_ne_zero _ 0 (by omega)]

/-- When the condition register holds a value the program can give it, a flag is
set exactly when the register equals that flag. -/
theorem br_taken_iff (i c : Nat)
    (hc : c = 0 ∨ c = COND_POSITIVE ∨ c = COND_ZERO ∨ c = COND_NEGATIVE) :
    br_taken i c = true ↔
      (i.testBit 11 = true ∧ c = COND_NEGATIVE) ∨ (i.testBit 10 = true ∧ c = COND_ZERO) ∨
        (i.testBit 9 = true ∧ c = COND_POSITIVE) := by
  unfold br_taken
  rcases hc with h | h | h | h <;> subst h <;>
    simp [COND_NEGATIVE, COND_ZERO, COND_POSITIVE, Nat.testBit_to_div_mod]

/-- C9 (amended): for every state with program counter `p` whose fetched
instruction word has opcode `0000`, the cycle completes; the branch is taken iff
a requested flag (bit 11 / 10 / 9) is set in the condition register (bit 2 / 1 /
0), which for the values the register can hold (0 after start-up, or one of the
three flags) means: bit 11 and NEGATIVE, or bit 10 and ZERO, or bit 9 and
POSITIVE; the new program counter is `(p + 1 + sign_extend (bits 0-8) 9) mod 2^16`
if taken and `(p + 1) mod 2^16` otherwise; R0..R7 and the condition register are
unchanged; every memory cell other than `0xFE00` is unchanged, and cell `0xFE00`
is unchanged unless `p = 0xFE00`, where the fetch leaves it 0. -/
theorem br_cycle (s : State) (h : bits (fetched s) 12 15 = OP_BR) :
    ∃ s', cycle s = some s' ∧
      s'.registers R_PC =
        (if br_taken (fetched s) (s.registers R_COND) = true then
          (s.registers R_PC + 1 + sign_extend (bits (fetched s) 0 8) 9) % 65536
        else (s.registers R_PC + 1) % 65536) ∧
      ((s.registers R_COND = 0 ∨ s.registers R_COND = COND_POSITIVE ∨
          s.registers R_COND = COND_ZERO ∨ s.registers R_COND = COND_NEGATIVE) →
        (br_taken (fetched s) (s.registers R_COND) = true ↔
          ((fetched s).testBit 11 = true ∧ s.registers R_COND = COND_NEGATIVE) ∨
          ((fetched s).testBit 10 = true ∧ s.registers R_COND = COND_ZERO) ∨
          ((fetched s).testBit 9 = true ∧ s.registers R_COND = COND_POSITIVE))) ∧
      (∀ r, r ≠ R_PC → s'.registers r = s.registers r) ∧
      (∀ a, a ≠ MR_KBSR → s'.memory a = s.memory a) ∧
      (s.registers R_PC ≠ MR_KBSR → s'.memory MR_KBSR = s.memory MR_KBSR) ∧
      (s.registers R_PC = MR_KBSR → s'.memory MR_KBSR = 0) ∧
      s'.input = s.input ∧ s'.output = s.output ∧ s'.running = s.running := by
  have hcond : (set_reg (get_memory (s.registers R_PC) s).2 R_PC
      (s.registers R_PC + 1)).registers R_COND = s.registers R_COND := by
    simp [set_reg, store, R_COND, R_PC]
  have hmem : (∀ a, a ≠ MR_KBSR →
        (get_memory (s.registers R_PC) s).2.memory a = s.memory a) ∧
      (s.registers R_PC ≠ MR_KBSR →
        (get_memory (s.registers R_PC) s).2.memory MR_KBSR = s.memory MR_KBSR) ∧
      (s.registers R_PC = MR_KBSR →
        (get_memory (s.registers R_PC) s).2.memory MR_KBSR = 0) ∧
      (get_memory (s.registers R_PC) s).2.input = s.input := by
    by_cases hp : s.registers R_PC = MR_KBSR
    · have hf : fetched s ≠ 32768 := by
        intro h8
        rw [h8] at h
        exact absurd h (by decide)
      unfold fetched get_memory at hf
      unfold get_memory
      rw [if_pos hp] at hf ⊢
      cases hin : s.input with
      | nil =>
        refine ⟨fun a ha => ?_, fun hne => absurd hp hne, fun _ => ?_, ?_⟩
        · simp [store, ha]
        · simp [store]
        · simp [hin]
      | cons c rest =>
        rw [hin, hp] at hf
        exact absurd (by simp [store, MR_KBSR, MR_KBDR]) hf
    · rw [get_memory_plain _ _ hp]
      exact ⟨fun _ _ => rfl, fun _ => rfl, fun hq => absurd hq hp, rfl⟩
  refine ⟨exec_br (fetched s)
    (set_reg (get_memory (s.registers R_PC) s).2 R_PC (s.registers R_PC + 1)),
    ?_, ?_, br_taken_iff _ _, ?_, ?_, ?_, ?_, ?_, ?_, ?_⟩
  · rw [cycle_eq]
    simp [dispatch, h, OP_BR]
  all_goals rw [exec_br_eq, hcond]
  · split_ifs
    · simp only [set_reg, store, if_true]
      omega
    · simp [set_reg, store]
  · intro r hr
    split_ifs <;> simp [set_reg, store, hr]
  · intro a ha
    split_ifs <;> exact hmem.1 a ha
  · intro hp
    split_ifs <;> exact hmem.2.1 hp
  · intro hp
    split_ifs <;> exact hmem.2.2.1 hp
  · split_ifs <;> exact hmem.2.2.2
  · split_ifs <;> simp [set_reg]
  · split_ifs <;> simp [set_reg]

/-- C9 (amended) on `br_example`: `BRnzp #2` at `0x3000` with the condition
register ZERO is taken and moves the program counter to `0x3003`. -/
theorem br_cycle_witness :
    bits (fetched br_example) 12 15 = OP_BR ∧
    ∃ s', cycle br_example = some s' ∧ s'.registers R_PC = 12291 := by
  have h : bits (fetched br_example) 12 15 = OP_BR := by decide
  obtain ⟨s', hc, hpc, _⟩ := br_cycle br_example h
  have e1 : br_taken (fetched br_example) (br_example.registers R_COND) = true := by decide
  have e2 : (br_example.registers R_PC + 1 +
      sign_extend (bits (fetched br_example) 0 8) 9) % 65536 = 12291 := by decide
  rw [if_pos e1, e2] at hpc
  exact ⟨h, s', hc, hpc⟩

/-- C9 as stated fails: a `BR` word can be fetched in a cycle that changes
memory. On `kbsr_example` the fetch at `0xFE00` polls the keyboard, finds no key,
stores 0 in the cell (which held 5) and returns 0, a `BR` word. -/
theorem br_memory_frame_fails :
    ¬ ∀ s : State, bits (fetched s) 12 15 = OP_BR →
      ∀ s', cycle s = some s' → ∀ a, s'.memory a = s.memory a := by
  intro H
  have h := H kbsr_example (by decide) _ rfl 65024
  revert h
  decide

/-! ## TRAP HALT -/

/-- C7: for every state with program counter `p` whose fetched word is a `TRAP`
with vector `0x25`, `execute` runs exactly one cycle (it needs one unit of fuel
and any larger amount gives the same final state); that cycle appends the bytes
of `HALT` to the output, consumes no input and leaves every memory cell as it
was (nothing is read or written after the fetch); the final state is halted with
`PC = R7 = (p + 1) mod 2^16` and R0..R6 and the condition register unchanged. -/
theorem trap_halt_stops (s : State) (fuel : Nat)
    (h : bits (fetched s) 12 15 = OP_TRAP) (hv : bits (fetched s) 0 7 = TRAP_HALT) :
    ∃ s', cycle { s with running := true } = some s' ∧
      execute (fuel + 1) s = some s' ∧ execute 0 s = none ∧
      s'.running = false ∧
      s'.output = s.output ++ str_bytes "HALT" ∧
      s'.input = s.input ∧
      s'.registers R_PC = (s.registers R_PC + 1) % 65536 ∧
      s'.registers R_R7 = (s.registers R_PC + 1) % 65536 ∧
      (∀ r, r < 7 → s'.registers r = s.registers r) ∧
      s'.registers R_COND = s.registers R_COND ∧
      ∀ a, s'.memory a = s.memory a := by
  have hpc := pc_ne_kbsr s (by rw [h]; decide) (by rw [h]; decide)
  have hf : fetched { s with running := true } = fetched s := by
    unfold fetched get_memory
    split_ifs
    · cases s.input <;> rfl
    · rfl
  have hpc1 : ({ s with running := true } : State).registers R_PC ≠ MR_KBSR := hpc
  have hc : cycle { s with running := true } =
      some { put (set_reg (set_reg { s with running := true } R_PC (s.registers R_PC + 1))
        R_R7 ((s.registers R_PC + 1) % 65536)) (str_bytes "HALT") with running := false } := by
    rw [cycle_plain _ hpc1, hf]
    simp [dispatch, exec_trap, h, hv, OP_TRAP, OP_BR, OP_ADD, OP_LD, OP_ST, OP_JSR, OP_AND,
      OP_LDR, OP_STR, OP_RTI, OP_NOT, OP_LDI, OP_STI, OP_JMP, OP_RESERVED, OP_LEA,
      TRAP_HALT, TRAP_GETC, TRAP_OUT, TRAP_PUTS, TRAP_IN, TRAP_PUTSP, set_reg, store]
  refine ⟨_, hc, ?_, rfl, rfl, rfl, rfl, ?_, ?_, ?_, ?_, fun _ => rfl⟩
  · unfold execute execute_loop
    simp only [if_true, hc, Option.some_bind]
    cases fuel <;> rfl
  · simp [set_reg, store, put, R_PC, R_R7]
  · simp [set_reg, store, put, R_PC, R_R7]
  · intro r hr
    have h1 : r ≠ R_R7 := by unfold R_R7; omega
    have h2 : r ≠ R_PC := by unfold R_PC; omega
    simp [set_reg, store, put, h1, h2]
  · simp [set_reg, store, put, R_PC, R_R7, R_COND]

/-- C7 on the state about to fetch `TRAP 0x25` (`0xF025`) at `0x3000`: one cycle,
output `HALT`, `PC = R7 = 0x3001`. -/
theorem trap_halt_stops_witness :
    (bits (fetched (example_state 12288 61477 0)) 12 15 = OP_TRAP ∧
      bits (fetched (example_state 12288 61477 0)) 0 7 = TRAP_HALT) ∧
    ∃ s', execute 1 (example_state 12288 61477 0) = some s' ∧
      s'.running = false ∧ s'.output = [72, 65, 76, 84] ∧
      s'.registers R_PC = 12289 ∧ s'.registers R_R7 = 12289 := by
  have h : bits (fetched (example_state 12288 61477 0)) 12 15 = OP_TRAP := by decide
  have hv : bits (fetched (example_state 12288 61477 0)) 0 7 = TRAP_HALT := by decide
  obtain ⟨s', _, he, _, hr, ho, _, hpc, h7, _⟩ :=
    trap_halt_stops (example_state 12288 61477 0) 0 h hv
  exact ⟨⟨h, hv⟩, s', he, hr, ho, hpc, h7⟩

/-! ## The run flag -/

@[simp] theorem set_condition_codes_running (v : Nat) (s : State) :
    (set_condition_codes v s).running = s.running :=
  (set_condition_codes_frame v s).2.2.1

@[simp] theorem set_reg_running (s : State) (r v : Nat) :
    (set_reg s r v).running = s.running := rfl

@[simp] theorem set_memory_running (a v : Nat) (s : State) :
    (set_memory a v s).running = s.running := rfl

@[simp] theorem put_running (s : State) (bs : List Nat) :
    (put s bs).running = s.running := rfl

theorem puts_loop_running (fuel : Nat) :
    ∀ (a : Nat) (s s' : State), puts_loop fuel a s = some s' → s'.running = s.running := by
  induction fuel with
  | zero => intro a s s' h; simp [puts_loop] at h
  | succ n ih =>
    intro a s s' h
    unfold puts_loop at h
    simp only at h
    split_ifs at h
    · rw [ih _ _ _ h]
      simp
    · cases h
      simp

theorem putsp_loop_running (fuel : Nat) :
    ∀ (a : Nat) (s s' : State), putsp_loop fuel a s = some s' → s'.running = s.running := by
  induction fuel with
  | zero => intro a s s' h; simp [putsp_loop] at h
  | succ n ih =>
    intro a s s' h
    unfold putsp_loop at h
    simp only at h
    split_ifs at h
    · rw [ih _ _ _ h]
      simp
    · rw [ih _ _ _ h]
      simp
    · cases h
      simp

/-- The run flag after a completed `TRAP`. -/
theorem exec_trap_running (i : Nat) (s s' : State) (h : exec_trap i s = some s') :
    s'.running = if bits i 0 7 = TRAP_HALT then false else s.running := by
  unfold exec_trap at h
  simp only at h
  split_ifs at h with h0 h1 h2 h3 h4 h5
  · have hne : bits i 0 7 ≠ TRAP_HALT := by rw [h0]; decide
    rw [if_neg hne]
    cases hin : s.input with
    | nil => simp [set_reg, hin] at h
    | cons c rest =>
      simp only [set_reg, hin] at h
      cases h
      simp
  · have hne : bits i 0 7 ≠ TRAP_HALT := by rw [h1]; decide
    rw [if_neg hne]
    cases h
    simp
  · have hne : bits i 0 7 ≠ TRAP_HALT := by rw [h2]; decide
    rw [if_neg hne, puts_loop_running _ _ _ _ h]
    simp
  · have hne : bits i 0 7 ≠ TRAP_HALT := by rw [h3]; decide
    rw [if_neg hne]
    cases hin : s.input with
    | nil => simp [set_reg, put, hin] at h
    | cons c rest =>
      simp only [set_reg, put, hin] at h
      cases h
      simp
  · have hne : bits i 0 7 ≠ TRAP_HALT := by rw [h4]; decide
    rw [if_neg hne, putsp_loop_running _ _ _ _ h]
    simp
  · rw [if_pos h5]
    cases h
    rfl
  · rw [if_neg h5]
    cases h
    simp

/-- The run flag after a completed dispatch: cleared exactly by `RTI`, the
reserved opcode and `TRAP 0x25`. -/
theorem dispatch_running (i : Nat) (s s' : State) (h : dispatch i s = some s') :
    s'.running =
      if bits i 12 15 = OP_RTI ∨ bits i 12 15 = OP_RESERVED ∨
          (bits i 12 15 = OP_TRAP ∧ bits i 0 7 = TRAP_HALT) then false
      else s.running := by
  have hlt : bits i 12 15 < 16 := bits_lt i 12 15 (by omega) (by omega)
  unfold dispatch at h
  generalize bits i 12 15 = op at h hlt ⊢
  interval_cases op <;>
    simp only [OP_BR, OP_ADD, OP_LD, OP_ST, OP_JSR, OP_AND, OP_LDR, OP_STR, OP_RTI, OP_NOT,
      OP_LDI, OP_STI, OP_JMP, OP_RESERVED, OP_LEA, OP_TRAP, Nat.reduceEqDiff, if_true,
      if_false, Option.some.injEq, false_or, or_false, false_and, true_and, or_true,
      true_or] at h ⊢
  case «0» =>
    rw [← h, exec_br_eq]
    split_ifs <;> rfl
  case «1» => rw [← h]; simp [exec_add]
  case «2» => rw [← h]; simp [exec_ld]
  case «3» => rw [← h]; simp [exec_st]
  case «4» =>
    rw [← h]
    unfold exec_jsr
    split_ifs <;> rfl
  case «5» => rw [← h]; simp [exec_and]
  case «6» => rw [← h]; simp [exec_ldr]
  case «7» => rw [← h]; simp [exec_str]
  case «8» => rw [← h]; rfl
  case «9» => rw [← h]; simp [exec_not]
  case «10» => rw [← h]; simp [exec_ldi]
  case «11» => rw [← h]; simp [exec_sti]
  case «12» => rw [← h]; simp [exec_jmp]
  case «13» => rw [← h]; rfl
  case «14» => rw [← h]; simp [exec_lea]
  case «15» => exact exec_trap_running i s s' h

/-- C6: for every state in which the loop body runs (`running` is true), a cycle
that completes ends halted (`running` false) if and only if the fetched
instruction word has opcode `1000` (RTI), opcode `1101` (reserved), or opcode
`1111` (TRAP) with low 8 bits `0x25`; after every other instruction word the
engine is still running. -/
theorem cycle_halts_iff (s s' : State) (hr : s.running = true) (hc : cycle s = some s') :
    (s'.running = false ↔
      (bits (fetched s) 12 15 = OP_RTI ∨ bits (fetched s) 12 15 = OP_RESERVED ∨
        (bits (fetched s) 12 15 = OP_TRAP ∧ bits (fetched s) 0 7 = TRAP_HALT))) ∧
    (¬ (bits (fetched s) 12 15 = OP_RTI ∨ bits (fetched s) 12 15 = OP_RESERVED ∨
        (bits (fetched s) 12 15 = OP_TRAP ∧ bits (fetched s) 0 7 = TRAP_HALT)) →
      s'.running = true) := by
  rw [cycle_eq] at hc
  have h := dispatch_running _ _ _ hc
  simp only [set_reg_running, get_memory_running, hr] at h
  constructor
  · constructor
    · intro hf
      by_contra hn
      rw [if_neg hn, hf] at h
      exact absurd h (by decide)
    · intro hp
      rw [if_pos hp] at h
      exact h
  · intro hn
    rw [if_neg hn] at h
    exact h

/-- C6 on two states: fetching `TRAP 0x25` ends halted, fetching
`ADD R0,R1,#-3` ends running. -/
theorem cycle_halts_iff_witness :
    (example_state 12288 61477 0).running = true ∧
    (∃ s', cycle (example_state 12288 61477 0) = some s' ∧ s'.running = false) ∧
    (∃ s', cycle (example_state 12288 4221 5) = some s' ∧ s'.running = true) :=
  ⟨rfl,
    ⟨_, rfl, (cycle_halts_iff (example_state 12288 61477 0) _ rfl rfl).1.mpr
      (Or.inr (Or.inr ⟨by decide, by decide⟩))⟩,
    ⟨_, rfl, (cycle_halts_iff (example_state 12288 4221 5) _ rfl rfl).2 (by decide)⟩⟩

/-! ## Memory read -/

/-- C18: for every state and every address `a` other than `MR_KBSR`,
`get_memory a` returns `memory[a]` and changes nothing (no cell, no pending
input), so right after `set_memory a v` it returns the 16-bit `v`; for
`a = MR_KBSR` with a character `c` pending it returns `0x8000`, leaves
`memory[0xFE00] = 0x8000` and `memory[0xFE02] = c`, and consumes `c`; with
nothing pending it returns 0 and leaves `memory[0xFE00] = 0`; in both cases every
other cell, the registers and the output are unchanged. -/
theorem get_memory_cases (s : State) (a v c : Nat) (rest : List Nat)
    (hv : v < 65536) (hc : c < 256) :
    (a ≠ MR_KBSR →
      get_memory a s = (s.memory a, s) ∧ (get_memory a (set_memory a v s)).1 = v) ∧
    (s.input = c :: rest →
      (get_memory MR_KBSR s).1 = 32768 ∧
      (get_memory MR_KBSR s).2.memory 65024 = 32768 ∧
      (get_memory MR_KBSR s).2.memory 65026 = c ∧
      (get_memory MR_KBSR s).2.input = rest ∧
      (∀ b, b ≠ 65024 → b ≠ 65026 → (get_memory MR_KBSR s).2.memory b = s.memory b)) ∧
    (s.input = [] →
      (get_memory MR_KBSR s).1 = 0 ∧
      (get_memory MR_KBSR s).2.memory 65024 = 0 ∧
      (get_memory MR_KBSR s).2.input = [] ∧
      (∀ b, b ≠ 65024 → (get_memory MR_KBSR s).2.memory b = s.memory b)) ∧
    (get_memory MR_KBSR s).2.registers = s.registers ∧
    (get_memory MR_KBSR s).2.output = s.output ∧
    (get_memory MR_KBSR s).2.running = s.running := by
  refine ⟨fun ha => ⟨get_memory_plain a s ha, ?_⟩, fun hin => ?_, fun hin => ?_,
    get_memory_registers _ _, get_memory_output _ _, get_memory_running _ _⟩
  · rw [get_memory_plain _ _ ha]
    simp only [set_memory, store, if_true]
    exact Nat.mod_eq_of_lt hv
  · unfold get_memory
    rw [if_pos rfl, hin]
    refine ⟨by simp [store, MR_KBSR, MR_KBDR], by simp [store, MR_KBSR, MR_KBDR], ?_, rfl,
      fun b h1 h2 => ?_⟩
    · simp only [store, MR_KBDR, if_true]
      exact Nat.mod_eq_of_lt hc
    · simp [store, MR_KBSR, MR_KBDR, h1, h2]
  · unfold get_memory
    rw [if_pos rfl, hin]
    refine ⟨by simp [store], by simp [store, MR_KBSR], rfl, fun b h1 => ?_⟩
    simp [store, MR_KBSR, h1]

/-- C18 on a state with the key `A` pending: a read of `0x3000` right after a
write of `0x1234` returns it, and a read of `0xFE00` returns `0x8000` and moves
the key to `0xFE02`. -/
theorem get_memory_cases_witness :
    (4660 < 65536 ∧ 65 < 256) ∧
    (get_memory 12288 (set_memory 12288 4660 (make_state [] [] [65]))).1 = 4660 ∧
    (get_memory MR_KBSR (make_state [] [] [65])).1 = 32768 ∧
    (get_memory MR_KBSR (make_state [] [] [65])).2.memory 65026 = 65 :=
  ⟨by decide,
    ((get_memory_cases (make_state [] [] [65]) 12288 4660 65 [] (by decide)
      (by decide)).1 (by decide)).2,
    ((get_memory_cases (make_state [] [] [65]) 12288 4660 65 [] (by decide)
      (by decide)).2.1 rfl).1,
    ((get_memory_cases (make_state [] [] [65]) 12288 4660 65 [] (by decide)
      (by decide)).2.1 rfl).2.2.1⟩

/-! ## Dispatch by opcode -/

theorem dispatch_st (i : Nat) (s : State) (h : bits i 12 15 = OP_ST) :
    dispatch i s = some (exec_st i s) := by
  simp [dispatch, h, OP_ST, OP_BR, OP_ADD, OP_LD]

theorem dispatch_ld (i : Nat) (s : State) (h : bits i 12 15 = OP_LD) :
    dispatch i s = some (exec_ld i s) := by
  simp [dispatch, h, OP_BR, OP_ADD, OP_LD]

theorem dispatch_jsr (i : Nat) (s : State) (h : bits i 12 15 = OP_JSR) :
    dispatch i s = some (exec_jsr i s) := by
  simp [dispatch, h, OP_ST, OP_BR, OP_ADD, OP_LD, OP_JSR]

theorem dispatch_str (i : Nat) (s : State) (h : bits i 12 15 = OP_STR) :
    dispatch i s = some (exec_str i s) := by
  simp [dispatch, h, OP_ST, OP_BR, OP_ADD, OP_LD, OP_JSR, OP_AND, OP_LDR, OP_STR]

theorem dispatch_sti (i : Nat) (s : State) (h : bits i 12 15 = OP_STI) :
    dispatch i s = some (exec_sti i s) := by
  simp [dispatch, h, OP_ST, OP_BR, OP_ADD, OP_LD, OP_JSR, OP_AND, OP_LDR, OP_STR, OP_RTI,
    OP_NOT, OP_LDI, OP_STI]

theorem dispatch_jmp (i : Nat) (s : State) (h : bits i 12 15 = OP_JMP) :
    dispatch i s = some (exec_jmp i s) := by
  simp [dispatch, h, OP_ST, OP_BR, OP_ADD, OP_LD, OP_JSR, OP_AND, OP_LDR, OP_STR, OP_RTI,
    OP_NOT, OP_LDI, OP_STI, OP_JMP]

theorem dispatch_br (i : Nat) (s : State) (h : bits i 12 15 = OP_BR) :
    dispatch i s = some (exec_br i s) := by
  simp [dispatch, h, OP_BR]

theorem dispatch_rti (i : Nat) (s : State) (h : bits i 12 15 = OP_RTI) :
    dispatch i s = some (exec_unimplemented 8 s) := by
  simp [dispatch, h, OP_ST, OP_BR, OP_ADD, OP_LD, OP_JSR, OP_AND, OP_LDR, OP_STR, OP_RTI]

theorem dispatch_reserved (i : Nat) (s : State) (h : bits i 12 15 = OP_RESERVED) :
    dispatch i s = some (exec_unimplemented 13 s) := by
  simp [dispatch, h, OP_ST, OP_BR, OP_ADD, OP_LD, OP_JSR, OP_AND, OP_LDR, OP_STR, OP_RTI,
    OP_NOT, OP_LDI, OP_STI, OP_JMP, OP_RESERVED]

theorem dispatch_trap (i : Nat) (s : State) (h : bits i 12 15 = OP_TRAP) :
    dispatch i s = exec_trap i s := by
  simp [dispatch, h, OP_ST, OP_BR, OP_ADD, OP_LD, OP_JSR, OP_AND, OP_LDR, OP_STR, OP_RTI,
    OP_NOT, OP_LDI, OP_STI, OP_JMP, OP_RESERVED, OP_LEA, OP_TRAP]

/-- The registers right after the fetch. -/
theorem fetch_registers (s : State) (r : Nat) :
    (set_reg (get_memory (s.registers R_PC) s).2 R_PC (s.registers R_PC + 1)).registers r =
      if r = R_PC then (s.registers R_PC + 1) % 65536 else s.registers r := by
  simp [set_reg, store]

/-! ## TRAP with an undefined vector -/

/-- C15: for every running state with program counter `p` whose fetched word is a
`TRAP` (opcode `1111`) with a vector (bits 0-7) outside `0x20..0x25`, the cycle
completes and does nothing but the trap linkage: no output, no input consumed,
the engine still running, `PC = R7 = (p + 1) mod 2^16`, and R0..R6, the condition
register and every memory cell unchanged. -/
theorem trap_unknown_cycle (s : State) (hr : s.running = true)
    (h : bits (fetched s) 12 15 = OP_TRAP)
    (hv : ¬ (32 ≤ bits (fetched s) 0 7 ∧ bits (fetched s) 0 7 ≤ 37)) :
    ∃ s', cycle s = some s' ∧
      s'.output = s.output ∧ s'.input = s.input ∧ s'.running = true ∧
      s'.registers R_PC = (s.registers R_PC + 1) % 65536 ∧
      s'.registers R_R7 = (s.registers R_PC + 1) % 65536 ∧
      (∀ r, r < 7 → s'.registers r = s.registers r) ∧
      s'.registers R_COND = s.registers R_COND ∧
      ∀ a, s'.memory a = s.memory a := by
  have hpc := pc_ne_kbsr s (by rw [h]; decide) (by rw [h]; decide)
  have v0 : bits (fetched s) 0 7 ≠ TRAP_GETC := by unfold TRAP_GETC; omega
  have v1 : bits (fetched s) 0 7 ≠ TRAP_OUT := by unfold TRAP_OUT; omega
  have v2 : bits (fetched s) 0 7 ≠ TRAP_PUTS := by unfold TRAP_PUTS; omega
  have v3 : bits (fetched s) 0 7 ≠ TRAP_IN := by unfold TRAP_IN; omega
  have v4 : bits (fetched s) 0 7 ≠ TRAP_PUTSP := by unfold TRAP_PUTSP; omega
  have v5 : bits (fetched s) 0 7 ≠ TRAP_HALT := by unfold TRAP_HALT; omega
  have hc : cycle s = some (set_reg (set_reg s R_PC (s.registers R_PC + 1)) R_R7
      ((s.registers R_PC + 1) % 65536)) := by
    rw [cycle_plain s hpc, dispatch_trap _ _ h]
    simp [exec_trap, v0, v1, v2, v3, v4, v5, set_reg, store]
  refine ⟨_, hc, rfl, rfl, hr, ?_, ?_, ?_, ?_, fun _ => rfl⟩
  · simp [set_reg, store, R_PC, R_R7]
  · simp [set_reg, store, R_PC, R_R7]
  · intro r hlt
    have h1 : r ≠ R_R7 := by unfold R_R7; omega
    have h2 : r ≠ R_PC := by unfold R_PC; omega
    simp [set_reg, store, h1, h2]
  · simp [set_reg, store, R_PC, R_R7, R_COND]

/-- C15 on the state about to fetch `TRAP 0x26` (`0xF026`) at `0x3000`. -/
theorem trap_unknown_cycle_witness :
    ((example_state 12288 61478 5).running = true ∧
      bits (fetched (example_state 12288 61478 5)) 12 15 = OP_TRAP ∧
      ¬ (32 ≤ bits (fetched (example_state 12288 61478 5)) 0 7 ∧
        bits (fetched (example_state 12288 61478 5)) 0 7 ≤ 37)) ∧
    ∃ s', cycle (example_state 12288 61478 5) = some s' ∧
      s'.output = [] ∧ s'.running = true ∧
      s'.registers R_PC = 12289 ∧ s'.registers R_R7 = 12289 := by
  have h : bits (fetched (example_state 12288 61478 5)) 12 15 = OP_TRAP := by decide
  have hv : ¬ (32 ≤ bits (fetched (example_state 12288 61478 5)) 0 7 ∧
      bits (fetched (example_state 12288 61478 5)) 0 7 ≤ 37) := by decide
  obtain ⟨s', hc, ho, _, hrun, hpc, h7, _⟩ :=
    trap_unknown_cycle (example_state 12288 61478 5) rfl h hv
  exact ⟨⟨rfl, h, hv⟩, s', hc, ho, hrun, hpc, h7⟩

/-! ## JSR / JSRR -/

/-- C12: for every state with program counter `p` whose fetched instruction word
has opcode `0100` (its base register holding a 16-bit value), the cycle
completes; R7 becomes the return address `(p + 1) mod 2^16`; if bit 11 is 0 the
program counter becomes the value of the register named by bits 6-8 as read
after that write (so `(p + 1) mod 2^16` when that register is R7, the register's
old value otherwise); if bit 11 is 1 it becomes
`(p + 1 + sign_extend (bits 0-10) 11) mod 2^16`; R0..R6, the condition register,
memory and the console are unchanged. -/
theorem jsr_cycle (s : State) (h : bits (fetched s) 12 15 = OP_JSR)
    (hreg : s.registers (bits (fetched s) 6 8) < 65536) :
    ∃ s', cycle s = some s' ∧
      s'.registers R_R7 = (s.registers R_PC + 1) % 65536 ∧
      (bit (fetched s) 11 = 0 →
        s'.registers R_PC =
          if bits (fetched s) 6 8 = R_R7 then (s.registers R_PC + 1) % 65536
          else s.registers (bits (fetched s) 6 8)) ∧
      (bit (fetched s) 11 = 1 →
        s'.registers R_PC =
          (s.registers R_PC + 1 + sign_extend (bits (fetched s) 0 10) 11) % 65536) ∧
      (∀ r, r < 7 → s'.registers r = s.registers r) ∧
      s'.registers R_COND = s.registers R_COND ∧
      (∀ a, s'.memory a = s.memory a) ∧
      s'.input = s.input ∧ s'.output = s.output := by
  have hpc := pc_ne_kbsr s (by rw [h]; decide) (by rw [h]; decide)
  have hsrc : bits (fetched s) 6 8 < 8 := reg_field_lt (fetched s) 6 (by omega)
  have hne : bits (fetched s) 6 8 ≠ R_PC := by unfold R_PC; omega
  refine ⟨exec_jsr (fetched s) (set_reg s R_PC (s.registers R_PC + 1)), ?_, ?_, ?_, ?_, ?_,
    ?_, ?_, ?_, ?_⟩
  · rw [cycle_plain s hpc, dispatch_jsr _ _ h]
  · unfold exec_jsr
    split_ifs <;> simp [set_reg, store, R_PC, R_R7]
  · intro hb
    unfold exec_jsr
    rw [if_pos hb]
    by_cases h7 : bits (fetched s) 6 8 = R_R7
    · simp [set_reg, store, h7, R_PC, R_R7]
    · simp only [set_reg, store, if_true, h7, hne, if_false]
      exact Nat.mod_eq_of_lt hreg
  · intro hb
    unfold exec_jsr
    rw [if_neg (by rw [hb]; decide)]
    simp only [set_reg, store, if_true, R_PC, R_R7]
    simp only [show (8 : Nat) ≠ 7 by decide, if_false]
    omega
  · intro r hr
    have h1 : r ≠ R_R7 := by unfold R_R7; omega
    have h2 : r ≠ R_PC := by unfold R_PC; omega
    unfold exec_jsr
    split_ifs <;> simp [set_reg, store, h1, h2]
  · unfold exec_jsr
    split_ifs <;> simp [set_reg, store, R_PC, R_R7, R_COND]
  · intro a
    unfold exec_jsr
    split_ifs <;> rfl
  · unfold exec_jsr
    split_ifs <;> rfl
  · unfold exec_jsr
    split_ifs <;> rfl

/-- C12 on the state with `R7 = 0x1111` about to fetch `JSRR R7` (`0x41C0`) at
`0x3000`: the new program counter is the return address `0x3001`, not `0x1111`. -/
theorem jsr_cycle_witness :
    (bits (fetched (make_state [(12288, 16832)] [(8, 12288), (7, 4369)] [])) 12 15 = OP_JSR ∧
      (make_state [(12288, 16832)] [(8, 12288), (7, 4369)] []).registers
        (bits (fetched (make_state [(12288, 16832)] [(8, 12288), (7, 4369)] [])) 6 8) <
        65536) ∧
    ∃ s', cycle (make_state [(12288, 16832)] [(8, 12288), (7, 4369)] []) = some s' ∧
      s'.registers R_R7 = 12289 ∧ s'.registers R_PC = 12289 := by
  have h : bits (fetched (make_state [(12288, 16832)] [(8, 12288), (7, 4369)] [])) 12 15 =
      OP_JSR := by decide
  have hreg : (make_state [(12288, 16832)] [(8, 12288), (7, 4369)] []).registers
      (bits (fetched (make_state [(12288, 16832)] [(8, 12288), (7, 4369)] [])) 6 8) <
      65536 := by decide
  obtain ⟨s', hc, h7, hjsrr, _⟩ :=
    jsr_cycle (make_state [(12288, 16832)] [(8, 12288), (7, 4369)] []) h hreg
  have hpc := hjsrr (by decide)
  rw [if_pos (by decide)] at hpc
  exact ⟨⟨h, hreg⟩, s', hc, h7, hpc⟩

/-! ## Instructions that leave the condition codes alone -/

/-- C16: for every state whose fetched instruction word has opcode ST (`0011`),
STI (`1011`), STR (`0111`), BR (`0000`), JMP (`1100`) or JSR (`0100`), the cycle
completes and the condition register after it equals the condition register
before it. -/
theorem stores_and_jumps_keep_cond (s : State)
    (h : bits (fetched s) 12 15 = OP_ST ∨ bits (fetched s) 12 15 = OP_STI ∨
      bits (fetched s) 12 15 = OP_STR ∨ bits (fetched s) 12 15 = OP_BR ∨
      bits (fetched s) 12 15 = OP_JMP ∨ bits (fetched s) 12 15 = OP_JSR) :
    ∃ s', cycle s = some s' ∧ s'.registers R_COND = s.registers R_COND := by
  have hf : (set_reg (get_memory (s.registers R_PC) s).2 R_PC
      (s.registers R_PC + 1)).registers R_COND = s.registers R_COND := by
    rw [fetch_registers]
    simp [R_COND, R_PC]
  rw [cycle_eq]
  rcases h with h | h | h | h | h | h
  · exact ⟨_, dispatch_st _ _ h, hf⟩
  · refine ⟨_, dispatch_sti _ _ h, ?_⟩
    simp only [exec_sti, set_memory, get_memory_registers]
    exact hf
  · exact ⟨_, dispatch_str _ _ h, hf⟩
  · refine ⟨_, dispatch_br _ _ h, ?_⟩
    rw [exec_br_eq]
    split_ifs
    · rw [← hf]
      simp [set_reg, store, R_COND, R_PC]
    · exact hf
  · refine ⟨_, dispatch_jmp _ _ h, ?_⟩
    rw [← hf]
    simp [exec_jmp, set_reg, store, R_COND, R_PC]
  · refine ⟨_, dispatch_jsr _ _ h, ?_⟩
    rw [← hf]
    unfold exec_jsr
    split_ifs <;> simp [set_reg, store, R_COND, R_PC, R_R7]

/-- C16 on `br_example`: a taken `BRnzp` leaves the condition register ZERO. -/
theorem stores_and_jumps_keep_cond_witness :
    bits (fetched br_example) 12 15 = OP_BR ∧
    ∃ s', cycle br_example = some s' ∧ s'.registers R_COND = COND_ZERO := by
  have h : bits (fetched br_example) 12 15 = OP_BR := by decide
  obtain ⟨s', hc, hcond⟩ :=
    stores_and_jumps_keep_cond br_example (Or.inr (Or.inr (Or.inr (Or.inl h))))
  exact ⟨h, s', hc, hcond⟩

/-! ## RTI and the reserved opcode -/

/-- What the fetch does to memory and the pending input. -/
theorem fetch_effect (s : State) :
    (s.registers R_PC ≠ MR_KBSR →
      (get_memory (s.registers R_PC) s).2.memory = s.memory ∧
      (get_memory (s.registers R_PC) s).2.input = s.input) ∧
    (s.registers R_PC = MR_KBSR → ∀ c rest, s.input = c :: rest →
      fetched s = 32768 ∧
      (get_memory (s.registers R_PC) s).2.memory 65024 = 32768 ∧
      (get_memory (s.registers R_PC) s).2.memory 65026 = c % 256 ∧
      (get_memory (s.registers R_PC) s).2.input = rest ∧
      ∀ b, b ≠ 65024 → b ≠ 65026 →
        (get_memory (s.registers R_PC) s).2.memory b = s.memory b) ∧
    (s.registers R_PC = MR_KBSR → s.input = [] →
      fetched s = 0 ∧
      (get_memory (s.registers R_PC) s).2.memory 65024 = 0 ∧
      (get_memory (s.registers R_PC) s).2.input = [] ∧
      ∀ b, b ≠ 65024 → (get_memory (s.registers R_PC) s).2.memory b = s.memory b) := by
  refine ⟨fun hp => ?_, fun hp c rest hin => ?_, fun hp hin => ?_⟩
  · rw [get_memory_plain _ _ hp]
    exact ⟨rfl, rfl⟩
  · unfold fetched get_memory
    rw [if_pos hp, hin, hp]
    refine ⟨by simp [store, MR_KBSR, MR_KBDR], by simp [store, MR_KBSR, MR_KBDR],
      by simp [store, MR_KBDR], rfl, fun b h1 h2 => ?_⟩
    simp [store, MR_KBSR, MR_KBDR, h1, h2]
  · unfold fetched get_memory
    rw [if_pos hp, hin, hp]
    refine ⟨by simp [store], by simp [store, MR_KBSR], rfl, fun b h1 => ?_⟩
    simp [store, MR_KBSR, h1]

/-- C19 (amended): for every state with program counter `p` whose fetched
instruction word has opcode `1000` (RTI) or `1101` (reserved), the cycle
completes, appends to the output the line `UNIMPLEMENTED OP CODE: ` followed by
the opcode in decimal (`8` or `13`) and a newline, and halts the engine; R0..R7
and the condition register are unchanged and the program counter becomes
`(p + 1) mod 2^16`; memory and the pending input are unchanged when `p` is not
`0xFE00`; when `p = 0xFE00` (then a key was pending and the word is the RTI word
`0x8000` the keyboard poll returned) the fetch has consumed that key and left
`memory[0xFE00] = 0x8000` and `memory[0xFE02] =` the key, every other cell
unchanged. -/
theorem unimplemented_cycle (s : State)
    (h : bits (fetched s) 12 15 = OP_RTI ∨ bits (fetched s) 12 15 = OP_RESERVED) :
    ∃ s', cycle s = some s' ∧
      s'.output = s.output ++
        (str_bytes "UNIMPLEMENTED OP CODE: " ++ dec_bytes (bits (fetched s) 12 15) ++ [10]) ∧
      (dec_bytes 8 = [56] ∧ dec_bytes 13 = [49, 51]) ∧
      s'.running = false ∧
      (∀ r, r ≠ R_PC → s'.registers r = s.registers r) ∧
      s'.registers R_PC = (s.registers R_PC + 1) % 65536 ∧
      (s.registers R_PC ≠ MR_KBSR →
        (∀ a, s'.memory a = s.memory a) ∧ s'.input = s.input) ∧
      (s.registers R_PC = MR_KBSR →
        ∃ c rest, s.input = c :: rest ∧ bits (fetched s) 12 15 = OP_RTI ∧
          s'.memory 65024 = 32768 ∧ s'.memory 65026 = c % 256 ∧ s'.input = rest ∧
          ∀ b, b ≠ 65024 → b ≠ 65026 → s'.memory b = s.memory b) := by
  have hfe := fetch_effect s
  have hop : bits (fetched s) 12 15 = 8 ∨ bits (fetched s) 12 15 = 13 := h
  have hd : dispatch (fetched s)
      (set_reg (get_memory (s.registers R_PC) s).2 R_PC (s.registers R_PC + 1)) =
      some (exec_unimplemented (bits (fetched s) 12 15)
        (set_reg (get_memory (s.registers R_PC) s).2 R_PC (s.registers R_PC + 1))) := by
    rcases h with h | h
    · rw [dispatch_rti _ _ h, h]
      rfl
    · rw [dispatch_reserved _ _ h, h]
      rfl
  refine ⟨_, by rw [cycle_eq, hd], ?_, ⟨by decide, by decide⟩, rfl, ?_, ?_, ?_, ?_⟩
  · simp [exec_unimplemented, put, set_reg]
  · intro r hr
    simp [exec_unimplemented, put, set_reg, store, hr]
  · simp [exec_unimplemented, put, set_reg, store]
  · intro hp
    obtain ⟨hm, hi⟩ := hfe.1 hp
    exact ⟨fun a => by simp [exec_unimplemented, put, set_reg, hm],
      by simp [exec_unimplemented, put, set_reg, hi]⟩
  · intro hp
    cases hin : s.input with
    | nil =>
      have h0 := (hfe.2.2 hp hin).1
      rw [h0] at hop
      exact absurd hop (by decide)
    | cons c rest =>
      obtain ⟨h8, hk, hdr, hi, hoth⟩ := hfe.2.1 hp c rest hin
      refine ⟨c, rest, rfl, ?_, ?_, ?_, ?_, ?_⟩
      · rw [h8]
        decide
      · simpa [exec_unimplemented, put, set_reg] using hk
      · simpa [exec_unimplemented, put, set_reg] using hdr
      · simpa [exec_unimplemented, put, set_reg] using hi
      · intro b h1 h2
        simpa [exec_unimplemented, put, set_reg] using hoth b h1 h2

/-- C19 (amended) on the state about to fetch the reserved word `0xD000` at
`0x3000`: the diagnostic ends in `13` and a newline, the engine halts. -/
theorem unimplemented_cycle_witness :
    (bits (fetched (example_state 12288 53248 5)) 12 15 = OP_RTI ∨
      bits (fetched (example_state 12288 53248 5)) 12 15 = OP_RESERVED) ∧
    ∃ s', cycle (example_state 12288 53248 5) = some s' ∧
      s'.output = str_bytes "UNIMPLEMENTED OP CODE: " ++ [49, 51, 10] ∧
      s'.running = false ∧ s'.registers R_PC = 12289 := by
  have h : bits (fetched (example_state 12288 53248 5)) 12 15 = OP_RTI ∨
      bits (fetched (example_state 12288 53248 5)) 12 15 = OP_RESERVED :=
    Or.inr (by decide)
  obtain ⟨s', hc, ho, _, hr, _, hpc, _⟩ := unimplemented_cycle (example_state 12288 53248 5) h
  refine ⟨h, s', hc, ?_, hr, hpc⟩
  rw [ho]
  decide

/-- C19 as stated fails: an RTI word can be fetched in a cycle that changes
memory. With the program counter at `0xFE00` and the key `A` pending, the fetch
returns `0x8000` (opcode `1000`) and stores the key in `memory[0xFE02]`. -/
theorem unimplemented_memory_frame_fails :
    ¬ ∀ s : State,
      (bits (fetched s) 12 15 = OP_RTI ∨ bits (fetched s) 12 15 = OP_RESERVED) →
      ∀ s', cycle s = some s' → ∀ a, s'.memory a = s.memory a := by
  intro H
  have h := H (make_state [] [(8, 65024)] [65]) (Or.inl (by decide)) _ rfl 65026
  revert h
  decide

/-! ## ST followed by LD -/

/-- A fetch away from the keyboard status register returns the stored word. -/
theorem fetched_plain (s : State) (h : s.registers R_PC ≠ MR_KBSR) :
    fetched s = s.memory (s.registers R_PC) := by
  unfold fetched
  rw [get_memory_plain _ _ h]

/-- The `ST` cycle: the source register is stored at the effective address. -/
theorem st_cycle (s : State) (a : Nat) (h : bits (fetched s) 12 15 = OP_ST)
    (ha : a = (s.registers R_PC + 1 + sign_extend (bits (fetched s) 0 8) 9) % 65536) :
    cycle s = some (set_memory a (s.registers (bits (fetched s) 9 11))
      (set_reg s R_PC (s.registers R_PC + 1))) := by
  have hpc := pc_ne_kbsr s (by rw [h]; decide) (by rw [h]; decide)
  have hsrc : bits (fetched s) 9 11 < 8 := reg_field_lt (fetched s) 9 (by omega)
  have hsrc_pc : bits (fetched s) 9 11 ≠ R_PC := by unfold R_PC; omega
  rw [cycle_plain s hpc, dispatch_st _ _ h]
  unfold exec_st
  have e1 : ((set_reg s R_PC (s.registers R_PC + 1)).registers R_PC +
      sign_extend (bits (fetched s) 0 8) 9) % 65536 = a := by
    simp only [set_reg, store, if_true]
    omega
  have e2 : (set_reg s R_PC (s.registers R_PC + 1)).registers (bits (fetched s) 9 11) =
      s.registers (bits (fetched s) 9 11) := by
    simp [set_reg, store, hsrc_pc]
  simp only [e1, e2]

/-- The `LD` cycle from an address other than the keyboard status register: the
destination register receives the 16-bit word stored there and the condition
register is set from it; memory is unchanged. -/
theorem ld_cycle (s : State) (a v : Nat) (h : bits (fetched s) 12 15 = OP_LD)
    (ha : a = (s.registers R_PC + 1 + sign_extend (bits (fetched s) 0 8) 9) % 65536)
    (hak : a ≠ MR_KBSR) (hv : s.memory a = v) (hv16 : v < 65536) :
    ∃ s', cycle s = some s' ∧ s'.registers (bits (fetched s) 9 11) = v ∧
      s'.memory = s.memory ∧ s'.registers R_COND = cond_of v := by
  have hpc := pc_ne_kbsr s (by rw [h]; decide) (by rw [h]; decide)
  have hdst : bits (fetched s) 9 11 < 8 := reg_field_lt (fetched s) 9 (by omega)
  have hdst_c : bits (fetched s) 9 11 ≠ R_COND := by unfold R_COND; omega
  have e1 : ((set_reg s R_PC (s.registers R_PC + 1)).registers R_PC +
      sign_extend (bits (fetched s) 0 8) 9) % 65536 = a := by
    simp only [set_reg, store, if_true]
    omega
  have e2 : get_memory a (set_reg s R_PC (s.registers R_PC + 1)) =
      (v, set_reg s R_PC (s.registers R_PC + 1)) := by
    rw [get_memory_plain _ _ hak]
    simp [set_reg, hv]
  refine ⟨exec_ld (fetched s) (set_reg s R_PC (s.registers R_PC + 1)), ?_, ?_, ?_, ?_⟩
  · rw [cycle_plain s hpc, dispatch_ld _ _ h]
  · unfold exec_ld
    simp only [e1, e2]
    rw [(set_condition_codes_frame _ _).1 _ hdst_c]
    simp only [set_reg, store, if_true]
    exact Nat.mod_eq_of_lt hv16
  · unfold exec_ld
    simp only [e1, e2]
    rw [(set_condition_codes_frame _ _).2.1]
    rfl
  · unfold exec_ld
    simp only [e1, e2]
    exact cond_after_eq_cond_of _ _ hv16

/-- C11: for every state with program counter `p` whose memory holds at `p` an
`ST` word `ws` (source register bits 9-11, holding a 16-bit value) and at
`(p + 1) mod 2^16` an `LD` word `wl` (destination bits 9-11) with the same
effective address `a = (p + 1 + sign_extend (ws bits 0-8) 9) mod 2^16 =
(p + 2 + sign_extend (wl bits 0-8) 9) mod 2^16`, where `a` is not `p + 1` and
none of `p`, `p + 1`, `a` is `0xFE00`: both cycles complete, and afterwards the
destination register equals the value the source register had before the `ST`,
`memory[a]` holds that value, and the condition register is set from it. -/
theorem st_ld_round_trip (s : State) (p a ws wl : Nat)
    (hpc : s.registers R_PC = p) (hws : s.memory p = ws)
    (hwl : s.memory ((p + 1) % 65536) = wl)
    (hst : bits ws 12 15 = OP_ST) (hld : bits wl 12 15 = OP_LD)
    (ha : a = (p + 1 + sign_extend (bits ws 0 8) 9) % 65536)
    (ha' : a = (p + 2 + sign_extend (bits wl 0 8) 9) % 65536)
    (hne : a ≠ (p + 1) % 65536)
    (hp : p ≠ MR_KBSR) (hp1 : (p + 1) % 65536 ≠ MR_KBSR) (hak : a ≠ MR_KBSR)
    (hreg : s.registers (bits ws 9 11) < 65536) :
    ∃ s1 s2, cycle s = some s1 ∧ cycle s1 = some s2 ∧
      s2.registers (bits wl 9 11) = s.registers (bits ws 9 11) ∧
      s2.memory a = s.registers (bits ws 9 11) ∧
      s2.registers R_COND = cond_of (s.registers (bits ws 9 11)) := by
  subst hpc
  have hf : fetched s = ws := by rw [fetched_plain s hp, hws]
  have hc1 := st_cycle s a (by rw [hf]; exact hst) (by rw [hf]; exact ha)
  rw [hf] at hc1
  have hpc1 : (set_memory a (s.registers (bits ws 9 11))
      (set_reg s R_PC (s.registers R_PC + 1))).registers R_PC =
      (s.registers R_PC + 1) % 65536 := by
    simp [set_memory, set_reg, store]
  have hf1 : fetched (set_memory a (s.registers (bits ws 9 11))
      (set_reg s R_PC (s.registers R_PC + 1))) = wl := by
    rw [fetched_plain _ (by rw [hpc1]; exact hp1), hpc1]
    simp only [set_memory, set_reg, store]
    rw [if_neg (fun hh => hne hh.symm), hwl]
  have hm1 : (set_memory a (s.registers (bits ws 9 11))
      (set_reg s R_PC (s.registers R_PC + 1))).memory a = s.registers (bits ws 9 11) := by
    simp only [set_memory, set_reg, store, if_true]
    exact Nat.mod_eq_of_lt hreg
  obtain ⟨s2, hc2, hr2, hm2, hcond2⟩ :=
    ld_cycle _ a (s.registers (bits ws 9 11)) (by rw [hf1]; exact hld)
      (by rw [hf1, hpc1]; omega) hak hm1 hreg
  rw [hf1] at hr2
  exact ⟨_, s2, hc1, hc2, hr2, by rw [hm2]; exact hm1, hcond2⟩

/-- C11 on the state with `R1 = 0x1234`, `ST R1,#1` (`0x3201`) at `0x3000` and
`LD R2,#0` (`0x2400`) at `0x3001`, both addressing `0x3002`: after the two
cycles `R2 = 0x1234`, `memory[0x3002] = 0x1234` and the condition register is
POSITIVE. -/
theorem st_ld_round_trip_witness :
    ∃ s1 s2,
      cycle (make_state [(12288, 12801), (12289, 9216)] [(8, 12288), (1, 4660)] []) =
        some s1 ∧
      cycle s1 = some s2 ∧ s2.registers 2 = 4660 ∧ s2.memory 12290 = 4660 ∧
      s2.registers R_COND = COND_POSITIVE :=
  st_ld_round_trip (make_state [(12288, 12801), (12289, 9216)] [(8, 12288), (1, 4660)] [])
    12288 12290 12801 9216 (by decide) (by decide) (by decide) (by decide) (by decide)
    (by decide) (by decide) (by decide) (by decide) (by decide) (by decide) (by decide)

/-! ## All-zero memory: the engine never halts -/

/-- One cycle on all-zero memory with no key pending: the fetched word 0 is a
`BR` that requests no flag. -/
theorem zero_memory_step (s : State) (hm : ∀ a, s.memory a = 0) (hin : s.input = []) :
    ∃ s', cycle s = some s' ∧ s'.running = s.running ∧ (∀ a, s'.memory a = 0) ∧
      (∀ r, r ≠ R_PC → s'.registers r = s.registers r) ∧
      s'.registers R_PC = (s.registers R_PC + 1) % 65536 ∧
      s'.input = [] ∧ s'.output = s.output := by
  have hfe := fetch_effect s
  have hf : fetched s = 0 := by
    by_cases hp : s.registers R_PC = MR_KBSR
    · exact (hfe.2.2 hp hin).1
    · rw [fetched_plain s hp]
      exact hm _
  have hmem : ∀ a, (get_memory (s.registers R_PC) s).2.memory a = 0 := by
    intro a
    by_cases hp : s.registers R_PC = MR_KBSR
    · by_cases ha : a = 65024
      · rw [ha]
        exact (hfe.2.2 hp hin).2.1
      · rw [(hfe.2.2 hp hin).2.2.2 a ha]
        exact hm a
    · rw [(hfe.1 hp).1]
      exact hm a
  have hinp : (get_memory (s.registers R_PC) s).2.input = [] := by
    by_cases hp : s.registers R_PC = MR_KBSR
    · exact (hfe.2.2 hp hin).2.2.1
    · rw [(hfe.1 hp).2]
      exact hin
  have hnt : ∀ c, br_taken 0 c = false := by
    intro c
    simp [br_taken]
  refine ⟨set_reg (get_memory (s.registers R_PC) s).2 R_PC (s.registers R_PC + 1), ?_, ?_,
    hmem, ?_, ?_, hinp, ?_⟩
  · rw [cycle_eq, hf, dispatch_br _ _ (by decide), exec_br_eq, hnt]
    simp
  · simp
  · intro r hr
    simp [set_reg, store, hr]
  · simp [set_reg, store]
  · simp [set_reg]

/-- Any number of cycles on all-zero memory with no key pending. -/
theorem zero_memory_run (n : Nat) :
    ∀ s : State, (∀ a, s.memory a = 0) → s.input = [] → s.registers R_PC < 65536 →
      ∃ s', run n s = some s' ∧ s'.running = s.running ∧ (∀ a, s'.memory a = 0) ∧
        (∀ r, r ≠ R_PC → s'.registers r = s.registers r) ∧
        s'.registers R_PC = (s.registers R_PC + n) % 65536 ∧
        s'.input = [] ∧ s'.output = s.output := by
  induction n with
  | zero =>
    intro s hm hin hp
    exact ⟨s, rfl, rfl, hm, fun _ _ => rfl, by simp [Nat.mod_eq_of_lt hp], hin, rfl⟩
  | succ n ih =>
    intro s hm hin hp
    obtain ⟨s1, hc, hr1, hm1, hreg1, hpc1, hin1, hout1⟩ := zero_memory_step s hm hin
    obtain ⟨s2, hrun, hr2, hm2, hreg2, hpc2, hin2, hout2⟩ :=
      ih s1 hm1 hin1 (by rw [hpc1]; exact Nat.mod_lt _ (by decide))
    refine ⟨s2, ?_, by rw [hr2, hr1], hm2, fun r hr => ?_, ?_, hin2, by rw [hout2, hout1]⟩
    · simp only [run, hc, Option.some_bind]
      exact hrun
    · rw [hreg2 r hr, hreg1 r hr]
    · rw [hpc2, hpc1]
      omega

/-- On all-zero memory with no key pending the loop of `execute` outlasts every
amount of fuel. -/
theorem zero_memory_loop (n : Nat) :
    ∀ s : State, s.running = true → (∀ a, s.memory a = 0) → s.input = [] →
      execute_loop n s = none := by
  induction n with
  | zero =>
    intro s hr _ _
    simp [execute_loop, hr]
  | succ n ih =>
    intro s hr hm hin
    obtain ⟨s1, hc, hr1, hm1, _, _, hin1, _⟩ := zero_memory_step s hm hin
    simp only [execute_loop, hr, if_true, hc, Option.some_bind]
    exact ih s1 (by rw [hr1, hr]) hm1 hin1

/-- C20: `execute` does not terminate on every input. From any state whose memory
is all zero, with program counter `p` (a 16-bit value), any register contents
and no console character ever pending: for every `n`, `n` cycles complete, the
engine is still running, memory is still all zero, every register other than the
program counter (R0..R7, the condition register) is unchanged, the program
counter is `(p + n) mod 65536`, and `execute` has not returned after `n`
cycles. -/
theorem zero_memory_never_halts (s : State) (n : Nat) (hm : ∀ a, s.memory a = 0)
    (hin : s.input = []) (hp : s.registers R_PC < 65536) :
    (∃ s', run n { s with running := true } = some s' ∧ s'.running = true ∧
      (∀ a, s'.memory a = 0) ∧
      (∀ r, r ≠ R_PC → s'.registers r = s.registers r) ∧
      s'.registers R_PC = (s.registers R_PC + n) % 65536 ∧ s'.input = []) ∧
    execute n s = none := by
  constructor
  · obtain ⟨s', hrun, hr, hm', hreg, hpc, hin', _⟩ :=
      zero_memory_run n { s with running := true } hm hin hp
    exact ⟨s', hrun, hr, hm', hreg, hpc, hin'⟩
  · exact zero_memory_loop n { s with running := true } rfl hm hin

/-- C20 on the start state with the program counter at `0xFFFF`: after 3 cycles
the engine is still running with the program counter wrapped to 2. -/
theorem zero_memory_never_halts_witness :
    ∃ s', run 3 { make_state [] [(8, 65535)] [] with running := true } = some s' ∧
      s'.running = true ∧ s'.registers R_PC = 2 ∧
      execute 3 (make_state [] [(8, 65535)] []) = none := by
  obtain ⟨⟨s', hrun, hr, _, _, hpc, _⟩, hex⟩ :=
    zero_memory_never_halts (make_state [] [(8, 65535)] []) 3 (fun _ => rfl) rfl
      (by decide)
  exact ⟨s', hrun, hr, hpc, hex⟩

/-! ## The condition register over a whole run -/

/-- After `set_condition_codes` the condition register is one flag, whatever the
value. -/
theorem set_condition_codes_flag (v : Nat) (s : State) :
    cond_flag ((set_condition_codes v s).registers R_COND) := by
  unfold set_condition_codes cond_flag
  split_ifs
  · right; left
    simp [set_reg, store, COND_ZERO]
  · left
    simp [set_reg, store, COND_NEGATIVE]
  · right; right
    simp [set_reg, store, COND_POSITIVE]

theorem puts_loop_registers (fuel : Nat) :
    ∀ (a : Nat) (s s' : State), puts_loop fuel a s = some s' →
      s'.registers = s.registers := by
  induction fuel with
  | zero => intro a s s' h; simp [puts_loop] at h
  | succ n ih =>
    intro a s s' h
    unfold puts_loop at h
    simp only at h
    split_ifs at h
    · rw [ih _ _ _ h]
      simp [put]
    · cases h
      simp

theorem putsp_loop_registers (fuel : Nat) :
    ∀ (a : Nat) (s s' : State), putsp_loop fuel a s = some s' →
      s'.registers = s.registers := by
  induction fuel with
  | zero => intro a s s' h; simp [putsp_loop] at h
  | succ n ih =>
    intro a s s' h
    unfold putsp_loop at h
    simp only at h
    split_ifs at h
    · rw [ih _ _ _ h]
      simp [put]
    · rw [ih _ _ _ h]
      simp [put]
    · cases h
      simp

/-- A completed `TRAP` keeps the condition register or leaves one flag in it. -/
theorem exec_trap_cond (i : Nat) (s s' : State) (h : exec_trap i s = some s') :
    s'.registers R_COND = s.registers R_COND ∨ cond_flag (s'.registers R_COND) := by
  have h7 : (set_reg s R_R7 (s.registers R_PC)).registers R_COND = s.registers R_COND := by
    simp [set_reg, store, R_COND, R_R7]
  unfold exec_trap at h
  simp only at h
  split_ifs at h with h0 h1 h2 h3 h4 h5
  · cases hin : s.input with
    | nil => simp [set_reg, hin] at h
    | cons c rest =>
      simp only [set_reg, hin] at h
      cases h
      exact Or.inr (set_condition_codes_flag _ _)
  · cases h
    exact Or.inl h7
  · rw [puts_loop_registers _ _ _ _ h]
    exact Or.inl h7
  · cases hin : s.input with
    | nil => simp [set_reg, put, hin] at h
    | cons c rest =>
      simp only [set_reg, put, hin] at h
      cases h
      exact Or.inr (set_condition_codes_flag _ _)
  · rw [putsp_loop_registers _ _ _ _ h]
    exact Or.inl h7
  · cases h
    exact Or.inl h7
  · cases h
    exact Or.inl h7

/-- A completed dispatch keeps the condition register or leaves one flag in it. -/
theorem dispatch_cond (i : Nat) (s s' : State) (h : dispatch i s = some s') :
    s'.registers R_COND = s.registers R_COND ∨ cond_flag (s'.registers R_COND) := by
  have hlt : bits i 12 15 < 16 := bits_lt i 12 15 (by omega) (by omega)
  unfold dispatch at h
  generalize bits i 12 15 = op at h hlt ⊢
  interval_cases op <;>
    simp only [OP_BR, OP_ADD, OP_LD, OP_ST, OP_JSR, OP_AND, OP_LDR, OP_STR, OP_RTI, OP_NOT,
      OP_LDI, OP_STI, OP_JMP, OP_RESERVED, OP_LEA, OP_TRAP, Nat.reduceEqDiff, if_true,
      if_false, Option.some.injEq] at h
  case «0» =>
    rw [← h, exec_br_eq]
    left
    split_ifs
    · simp [set_reg, store, R_COND, R_PC]
    · rfl
  case «1» => rw [← h]; exact Or.inr (set_condition_codes_flag _ _)
  case «2» => rw [← h]; exact Or.inr (set_condition_codes_flag _ _)
  case «3» => rw [← h]; exact Or.inl rfl
  case «4» =>
    rw [← h]
    left
    unfold exec_jsr
    split_ifs <;> simp [set_reg, store, R_COND, R_PC, R_R7]
  case «5» => rw [← h]; exact Or.inr (set_condition_codes_flag _ _)
  case «6» => rw [← h]; exact Or.inr (set_condition_codes_flag _ _)
  case «7» => rw [← h]; exact Or.inl rfl
  case «8» => rw [← h]; exact Or.inl rfl
  case «9» => rw [← h]; exact Or.inr (set_condition_codes_flag _ _)
  case «10» => rw [← h]; exact Or.inr (set_condition_codes_flag _ _)
  case «11» =>
    rw [← h]
    left
    simp [exec_sti, set_memory]
  case «12» =>
    rw [← h]
    left
    simp [exec_jmp, set_reg, store, R_COND, R_PC]
  case «13» => rw [← h]; exact Or.inl rfl
  case «14» => rw [← h]; exact Or.inr (set_condition_codes_flag _ _)
  case «15» => exact exec_trap_cond i s s' h

/-- A completed cycle keeps the condition register or leaves one flag in it. -/
theorem cycle_cond (s s' : State) (h : cycle s = some s') :
    s'.registers R_COND = s.registers R_COND ∨ cond_flag (s'.registers R_COND) := by
  rw [cycle_eq] at h
  have hd := dispatch_cond _ _ _ h
  rw [fetch_registers] at hd
  simpa [R_COND, R_PC] using hd

/-- Both "0 or one flag" and "one flag" are kept by every reachable state. -/
theorem reachable_cond (s0 s : State) (hr : reachable s0 s) :
    (cond_valid (s0.registers R_COND) → cond_valid (s.registers R_COND)) ∧
    (cond_flag (s0.registers R_COND) → cond_flag (s.registers R_COND)) := by
  induction hr with
  | start => exact ⟨id, id⟩
  | key s c _ ih => exact ih
  | step s s' _ hc ih =>
    rcases cycle_cond s s' hc with he | hf
    · rw [he]
      exact ih
    · exact ⟨fun _ => Or.inr hf, fun _ => hf⟩

/-- The registers after a successful load: only the program counter is written. -/
theorem load_program_registers (filename file : List Nat) (s0 s1 : State)
    (hl : load_program filename (some file) s0 = some (true, s1)) (r : Nat)
    (hr : r ≠ R_PC) : s1.registers r = s0.registers r := by
  unfold load_program at hl
  match file, hl with
  | b0 :: b1 :: rest, hl =>
    simp only [Option.some.injEq, Prod.mk.injEq, true_and] at hl
    rw [← hl]
    simp [set_reg, store, hr]

/-- C17 (amended): in every state the program can be in from the end of a
successful load onwards (the state right after the load, the registers having
been zero-initialised, and every state reached from it by any number of cycles,
with any keys typed in between), the condition register is 0 or exactly one of
NEGATIVE (4), ZERO (2), POSITIVE (1), never a combination of flags: it is 0 right
after the load, and from a state in which it holds a flag it holds exactly one
flag in every later state. -/
theorem cond_register_invariant (filename file : List Nat) (s0 s1 s : State)
    (hz : ∀ r, s0.registers r = 0)
    (hl : load_program filename (some file) s0 = some (true, s1))
    (hr : reachable s1 s) :
    (COND_NEGATIVE = 4 ∧ COND_ZERO = 2 ∧ COND_POSITIVE = 1) ∧
    s1.registers R_COND = 0 ∧
    cond_valid (s.registers R_COND) ∧
    (cond_flag (s.registers R_COND) →
      ∀ s', reachable s s' → cond_flag (s'.registers R_COND)) := by
  have h1 : s1.registers R_COND = 0 := by
    rw [load_program_registers filename file s0 s1 hl R_COND (by decide)]
    exact hz _
  refine ⟨⟨rfl, rfl, rfl⟩, h1, ?_, fun hf s' hr' => (reachable_cond s s' hr').2 hf⟩
  exact (reachable_cond s1 s hr).1 (Or.inl h1)

/-- C17 (amended) on the image `30 00 F0 25` loaded at process start, with the
key `A` typed afterwards: the condition register is still 0, a valid value. -/
theorem cond_register_invariant_witness :
    ∃ s1, load_program [] (some (image 12288 [61477])) zero_state = some (true, s1) ∧
      s1.registers R_COND = 0 ∧
      cond_valid (({ s1 with input := s1.input ++ [65] } : State).registers R_COND) :=
  ⟨_, rfl,
    (cond_register_invariant [] (image 12288 [61477]) zero_state _ _ (fun _ => rfl) rfl
      (reachable.key _ 65 reachable.start)).2.1,
    (cond_register_invariant [] (image 12288 [61477]) zero_state _ _ (fun _ => rfl) rfl
      (reachable.key _ 65 reachable.start)).2.2.1⟩

/-- C17 as stated fails: right after a successful load from zero-initialised
registers the condition register is 0, which is none of the three flags. -/
theorem cond_never_zero_fails :
    ¬ ∀ (filename file : List Nat) (s0 s1 s : State),
      (∀ r, s0.registers r = 0) →
      load_program filename (some file) s0 = some (true, s1) →
      reachable s1 s → cond_flag (s.registers R_COND) := by
  intro H
  have h := H [] (image 12288 [61477]) zero_state _ _ (fun _ => rfl) rfl reachable.start
  rcases h with h | h | h <;> exact absurd h (by decide)

/-! ## String output -/

theorem put_nil (s : State) : put s [] = s := by
  cases s
  simp [put]

theorem put_put (s : State) (xs ys : List Nat) : put (put s xs) ys = put s (xs ++ ys) := by
  simp [put, List.append_assoc]

/-- The `PUTS` loop over words with non-zero low bytes stored at `a, a+1, ...`
(modulo `2^16`, none at the keyboard status register) and followed by a word
whose low byte is zero: it writes the low bytes in order and stops. -/
theorem puts_loop_words (ws : List Nat) :
    ∀ (fuel a : Nat) (s : State), a < 65536 → ws.length < fuel →
      (∀ k, k < ws.length →
        (a + k) % 65536 ≠ MR_KBSR ∧ s.memory ((a + k) % 65536) = ws.getD k 0) →
      (a + ws.length) % 65536 ≠ MR_KBSR →
      s.memory ((a + ws.length) % 65536) % 256 = 0 →
      (∀ w ∈ ws, w % 256 ≠ 0) →
      puts_loop fuel a s = some (put s (ws.map (· % 256))) := by
  induction ws with
  | nil =>
    intro fuel a s ha hfuel _ hk hz _
    obtain ⟨f, rfl⟩ : ∃ f, fuel = f + 1 := ⟨fuel - 1, by simp at hfuel; omega⟩
    simp only [List.length_nil, Nat.add_zero, Nat.mod_eq_of_lt ha] at hk hz
    unfold puts_loop
    simp only [get_memory_plain _ _ hk, hz, ne_eq, not_true_eq_false, if_false,
      List.map_nil, put_nil]
  | cons w ws ih =>
    intro fuel a s ha hfuel hmem hk hz hnz
    simp only [List.length_cons] at hfuel hmem hk hz
    obtain ⟨f, rfl⟩ : ∃ f, fuel = f + 1 := ⟨fuel - 1, by omega⟩
    have h0 := hmem 0 (by omega)
    simp only [Nat.add_zero, Nat.mod_eq_of_lt ha, List.getD_cons_zero] at h0
    have hw : w % 256 ≠ 0 := hnz w (List.mem_cons_self _ _)
    unfold puts_loop
    simp only [get_memory_plain _ _ h0.1, h0.2, ne_eq, hw, not_false_eq_true, if_true]
    rw [ih f ((a + 1) % 65536) (put s [w % 256]) (Nat.mod_lt _ (by decide)) (by omega)
      ?_ ?_ ?_ (fun x hx => hnz x (List.mem_cons_of_mem _ hx))]
    · rw [put_put]
      rfl
    · intro k hklt
      have h1 := hmem (k + 1) (by omega)
      have e : ((a + 1) % 65536 + k) % 65536 = (a + (k + 1)) % 65536 := by omega
      rw [e]
      simpa [put] using h1
    · have e : ((a + 1) % 65536 + ws.length) % 65536 = (a + (ws.length + 1)) % 65536 := by
        omega
      rw [e]
      exact hk
    · have e : ((a + 1) % 65536 + ws.length) % 65536 = (a + (ws.length + 1)) % 65536 := by
        omega
      rw [e]
      simpa [put] using hz

/-- The `PUTSP` loop over non-zero words stored at `a, a+1, ...` (modulo `2^16`,
none at the keyboard status register) and followed by a zero word: of each word
it writes the low byte and then the high byte when that is not zero. -/
theorem putsp_loop_words (ws : List Nat) :
    ∀ (fuel a : Nat) (s : State), a < 65536 → ws.length < fuel →
      (∀ k, k < ws.length →
        (a + k) % 65536 ≠ MR_KBSR ∧ s.memory ((a + k) % 65536) = ws.getD k 0) →
      (a + ws.length) % 65536 ≠ MR_KBSR →
      s.memory ((a + ws.length) % 65536) = 0 →
      (∀ w ∈ ws, w ≠ 0) →
      putsp_loop fuel a s = some (put s (putsp_bytes ws)) := by
  induction ws with
  | nil =>
    intro fuel a s ha hfuel _ hk hz _
    obtain ⟨f, rfl⟩ : ∃ f, fuel = f + 1 := ⟨fuel - 1, by simp at hfuel; omega⟩
    simp only [List.length_nil, Nat.add_zero, Nat.mod_eq_of_lt ha] at hk hz
    unfold putsp_loop
    simp only [get_memory_plain _ _ hk, hz, ne_eq, not_true_eq_false, if_false,
      putsp_bytes, put_nil]
  | cons w ws ih =>
    intro fuel a s ha hfuel hmem hk hz hnz
    simp only [List.length_cons] at hfuel hmem hk hz
    obtain ⟨f, rfl⟩ : ∃ f, fuel = f + 1 := ⟨fuel - 1, by omega⟩
    have h0 := hmem 0 (by omega)
    simp only [Nat.add_zero, Nat.mod_eq_of_lt ha, List.getD_cons_zero] at h0
    have hw : w ≠ 0 := hnz w (List.mem_cons_self _ _)
    have hlo : bits w 0 7 % 256 = w % 256 := by
      rw [bits_eq w 0 7 (by omega) (by omega)]
      norm_num
    have hhi : bits w 8 15 % 256 = w / 256 % 256 := by
      rw [bits_eq w 8 15 (by omega) (by omega)]
      norm_num
    have hmem' : ∀ (t : State), t.memory = s.memory →
        (∀ k, k < ws.length → ((a + 1) % 65536 + k) % 65536 ≠ MR_KBSR ∧
          t.memory (((a + 1) % 65536 + k) % 65536) = ws.getD k 0) ∧
        ((a + 1) % 65536 + ws.length) % 65536 ≠ MR_KBSR ∧
        t.memory (((a + 1) % 65536 + ws.length) % 65536) = 0 := by
      intro t ht
      refine ⟨fun k hklt => ?_, ?_, ?_⟩
      · have h1 := hmem (k + 1) (by omega)
        have e : ((a + 1) % 65536 + k) % 65536 = (a + (k + 1)) % 65536 := by omega
        rw [e, ht]
        simpa using h1
      · have e : ((a + 1) % 65536 + ws.length) % 65536 = (a + (ws.length + 1)) % 65536 := by
          omega
        rw [e]
        exact hk
      · have e : ((a + 1) % 65536 + ws.length) % 65536 = (a + (ws.length + 1)) % 65536 := by
          omega
        rw [e, ht]
        exact hz
    unfold putsp_loop
    simp only [get_memory_plain _ _ h0.1, h0.2, ne_eq, hw, not_false_eq_true, if_true, hlo,
      hhi]
    by_cases hb : w / 256 % 256 = 0
    · simp only [hb, not_true_eq_false, if_false]
      obtain ⟨m1, m2, m3⟩ := hmem' (put s [w % 256]) rfl
      rw [ih f ((a + 1) % 65536) (put s [w % 256]) (Nat.mod_lt _ (by decide)) (by omega)
        m1 m2 m3 (fun x hx => hnz x (List.mem_cons_of_mem _ hx)), put_put]
      simp [putsp_bytes, hb]
    · simp only [hb, not_false_eq_true, if_true]
      obtain ⟨m1, m2, m3⟩ := hmem' (put (put s [w % 256]) [w / 256 % 256]) rfl
      rw [ih f ((a + 1) % 65536) (put (put s [w % 256]) [w / 256 % 256])
        (Nat.mod_lt _ (by decide)) (by omega)
        m1 m2 m3 (fun x hx => hnz x (List.mem_cons_of_mem _ hx)), put_put, put_put]
      simp [putsp_bytes, hb]

/-- A run of addresses that avoids the keyboard status register is shorter than
the address space. -/
theorem run_length_lt (a n : Nat) (ha : a < 65536)
    (h : ∀ k, k < n → (a + k) % 65536 ≠ MR_KBSR) : n < 65536 := by
  by_contra hn
  have hk := h ((65024 + 65536 - a) % 65536) (by omega)
  unfold MR_KBSR at hk
  omega

/-- The state in which a trap handler starts: after the fetch and `R7 = PC`. -/
theorem trap_entry (s : State) (h : bits (fetched s) 12 15 = OP_TRAP) :
    cycle s = exec_trap (fetched s) (set_reg s R_PC (s.registers R_PC + 1)) ∧
    (set_reg (set_reg s R_PC (s.registers R_PC + 1)) R_R7
      ((set_reg s R_PC (s.registers R_PC + 1)).registers R_PC)).registers R_R0 =
      s.registers R_R0 := by
  have hpc := pc_ne_kbsr s (by rw [h]; decide) (by rw [h]; decide)
  refine ⟨by rw [cycle_plain s hpc, dispatch_trap _ _ h], ?_⟩
  simp [set_reg, store, R_R0, R_R7, R_PC]

/-- The `TRAP PUTS` cycle on a string of words with non-zero low bytes that ends
at a word with a zero low byte. -/
theorem puts_cycle_eq (s : State) (ws : List Nat)
    (h : bits (fetched s) 12 15 = OP_TRAP) (hv : bits (fetched s) 0 7 = TRAP_PUTS)
    (hr0 : s.registers R_R0 < 65536)
    (hmem : ∀ k, k < ws.length →
      (s.registers R_R0 + k) % 65536 ≠ MR_KBSR ∧
      s.memory ((s.registers R_R0 + k) % 65536) = ws.getD k 0)
    (hk : (s.registers R_R0 + ws.length) % 65536 ≠ MR_KBSR)
    (hz : s.memory ((s.registers R_R0 + ws.length) % 65536) % 256 = 0)
    (hnz : ∀ w ∈ ws, w % 256 ≠ 0) :
    cycle s = some (put (set_reg (set_reg s R_PC (s.registers R_PC + 1)) R_R7
      ((set_reg s R_PC (s.registers R_PC + 1)).registers R_PC)) (ws.map (· % 256))) := by
  obtain ⟨hc, hr⟩ := trap_entry s h
  have hlen := run_length_lt _ _ hr0 (fun k hk' => (hmem k hk').1)
  rw [hc]
  unfold exec_trap
  simp only [hv, TRAP_PUTS, TRAP_GETC, TRAP_OUT, Nat.reduceEqDiff, if_false, if_true, hr]
  exact puts_loop_words ws _ _ _ hr0 (by unfold MEMORY_MAX; simpa using hlen) hmem hk hz hnz

/-- The `TRAP PUTSP` cycle on a string of non-zero words that ends at a zero
word. -/
theorem putsp_cycle_eq (s : State) (ws : List Nat)
    (h : bits (fetched s) 12 15 = OP_TRAP) (hv : bits (fetched s) 0 7 = TRAP_PUTSP)
    (hr0 : s.registers R_R0 < 65536)
    (hmem : ∀ k, k < ws.length →
      (s.registers R_R0 + k) % 65536 ≠ MR_KBSR ∧
      s.memory ((s.registers R_R0 + k) % 65536) = ws.getD k 0)
    (hk : (s.registers R_R0 + ws.length) % 65536 ≠ MR_KBSR)
    (hz : s.memory ((s.registers R_R0 + ws.length) % 65536) = 0)
    (hnz : ∀ w ∈ ws, w ≠ 0) :
    cycle s = some (put (set_reg (set_reg s R_PC (s.registers R_PC + 1)) R_R7
      ((set_reg s R_PC (s.registers R_PC + 1)).registers R_PC)) (putsp_bytes ws)) := by
  obtain ⟨hc, hr⟩ := trap_entry s h
  have hlen := run_length_lt _ _ hr0 (fun k hk' => (hmem k hk').1)
  have hfuel : ws.length < MEMORY_MAX * (s.input.length + 1) := by
    have h16 : MEMORY_MAX = 65536 := rfl
    rw [h16]
    have : 65536 * 1 ≤ 65536 * (s.input.length + 1) :=
      Nat.mul_le_mul_left _ (by omega)
    omega
  rw [hc]
  unfold exec_trap
  simp only [hv, TRAP_PUTSP, TRAP_PUTS, TRAP_GETC, TRAP_OUT, TRAP_IN, Nat.reduceEqDiff,
    if_false, if_true, hr]
  exact putsp_loop_words ws _ _ _ hr0 hfuel hmem hk hz hnz

/-- The spec's `PUTS` example: the words `0x0048`, `0x0049`, `0x0000` at `R0`
print exactly `HI`. -/
theorem puts_hi_output :
    ∃ s', cycle puts_hi_example = some s' ∧ s'.output = str_bytes "HI" := by
  refine ⟨_, puts_cycle_eq puts_hi_example [72, 73] (by decide) (by decide) (by decide)
    ?_ (by decide) (by decide) (by decide), by decide⟩
  intro k hk
  have hk2 : k < 2 := hk
  interval_cases k <;> decide

/-- C13, failing input: on `puts_example` memory holds at `R0 = 0x3100` the
non-zero word `0x0100` followed by a zero word (neither at `0xFE00`), so the
claim has `PUTS` write the one character `low-byte(0x0100) = 0`; the cycle
completes but writes nothing: the loop tests the word after its conversion to
`char`, so it stops at the first word whose low byte is zero, here before the
first zero word. -/
theorem puts_stops_at_zero_low_byte :
    bits (fetched puts_example) 12 15 = OP_TRAP ∧
    bits (fetched puts_example) 0 7 = TRAP_PUTS ∧
    puts_example.memory (puts_example.registers R_R0) = 256 ∧
    puts_example.memory (puts_example.registers R_R0 + 1) = 0 ∧
    [256].map (· % 256) = [0] ∧
    ∃ s', cycle puts_example = some s' ∧ s'.output = [] := by
  refine ⟨by decide, by decide, by decide, by decide, by decide, _,
    puts_cycle_eq puts_example [] (by decide) (by decide) (by decide)
      (fun k hk => absurd hk (Nat.not_lt_zero k)) (by decide) (by decide)
      (fun w hw => absurd hw (List.not_mem_nil w)), by decide⟩

/-- C14 (amended): for every state whose fetched word is `TRAP 0x24`, with `R0` a
16-bit address at which memory holds non-zero words `w1..wn` (addresses modulo
`2^16`, none of them `0xFE00`) followed by a zero word (not at `0xFE00`), the
cycle completes and writes to the console, for each word in order, its low byte
(also when that byte is zero) and then its high byte when that is not zero: it
stops at the first zero word and not at a zero byte. Memory, the pending input,
R0..R6 and the condition register are unchanged; `PC = R7 = (p + 1) mod 2^16`. -/
theorem putsp_cycle (s : State) (ws : List Nat)
    (h : bits (fetched s) 12 15 = OP_TRAP) (hv : bits (fetched s) 0 7 = TRAP_PUTSP)
    (hr0 : s.registers R_R0 < 65536)
    (hmem : ∀ k, k < ws.length →
      (s.registers R_R0 + k) % 65536 ≠ MR_KBSR ∧
      s.memory ((s.registers R_R0 + k) % 65536) = ws.getD k 0)
    (hk : (s.registers R_R0 + ws.length) % 65536 ≠ MR_KBSR)
    (hz : s.memory ((s.registers R_R0 + ws.length) % 65536) = 0)
    (hnz : ∀ w ∈ ws, w ≠ 0) :
    ∃ s', cycle s = some s' ∧
      s'.output = s.output ++ putsp_bytes ws ∧
      (∀ a, s'.memory a = s.memory a) ∧ s'.input = s.input ∧
      s'.running = s.running ∧
      s'.registers R_PC = (s.registers R_PC + 1) % 65536 ∧
      s'.registers R_R7 = (s.registers R_PC + 1) % 65536 ∧
      (∀ r, r < 7 → s'.registers r = s.registers r) ∧
      s'.registers R_COND = s.registers R_COND := by
  refine ⟨_, putsp_cycle_eq s ws h hv hr0 hmem hk hz hnz, rfl, fun _ => rfl, rfl, rfl,
    ?_, ?_, ?_, ?_⟩
  · simp [put, set_reg, store, R_PC, R_R7]
  · simp [put, set_reg, store, R_PC, R_R7]
  · intro r hr
    have h1 : r ≠ R_R7 := by unfold R_R7; omega
    have h2 : r ≠ R_PC := by unfold R_PC; omega
    simp [put, set_reg, store, h1, h2]
  · simp [put, set_reg, store, R_PC, R_R7, R_COND]

/-- C14 (amended) on `putsp_example`: the words `0x0041`, `0x4200`, `0x0000`
print the bytes `41 00 42`. -/
theorem putsp_cycle_witness :
    ∃ s', cycle putsp_example = some s' ∧ s'.output = [65, 0, 66] := by
  obtain ⟨s', hc, ho, _⟩ := putsp_cycle putsp_example [65, 16896] (by decide) (by decide)
    (by decide) (fun k hk => by
      have hk2 : k < 2 := hk
      interval_cases k <;> decide) (by decide) (by decide) (by decide)
  exact ⟨s', hc, ho⟩

/-- C14 as stated fails: on `putsp_example` the packed bytes at `R0` are
`41 00 00 42 00 00`, whose bytes before the first zero byte are `41` alone, but
`PUTSP` writes `41 00 42`: it goes on after the zero high byte of the first
word, and it writes the zero low byte of the second word. -/
theorem putsp_passes_zero_bytes :
    bits (fetched putsp_example) 12 15 = OP_TRAP ∧
    bits (fetched putsp_example) 0 7 = TRAP_PUTSP ∧
    putsp_example.memory (putsp_example.registers R_R0) = 65 ∧
    putsp_example.memory (putsp_example.registers R_R0 + 1) = 16896 ∧
    putsp_example.memory (putsp_example.registers R_R0 + 2) = 0 ∧
    before_zero (packed_bytes [65, 16896, 0]) = [65] ∧
    ∃ s', cycle putsp_example = some s' ∧ s'.output = [65, 0, 66] ∧
      s'.output ≠ putsp_example.output ++ before_zero (packed_bytes [65, 16896, 0]) := by
  refine ⟨by decide, by decide, by decide, by decide, by decide, by decide, _,
    putsp_cycle_eq putsp_example [65, 16896] (by decide) (by decide) (by decide)
      (fun k hk => by
        have hk2 : k < 2 := hk
        interval_cases k <;> decide) (by decide) (by decide) (by decide),
    by decide, by decide⟩

end LC3
